import Mathlib

/-!
Verification of the banking-dashboard data pipeline.

The repository contains two parallel implementations of a CSV-cleaning /
validation / analytics pipeline:

* the "validator" variant: `src/lib/dataProcessing/parser.ts`,
  `validator.ts`, `aggregator.ts`, `dataCleaner.ts` (strict cleaning,
  dataset-level validation, age correction, duplicate removal, anomaly
  scoring);
* the "dashboard" variant: `banking-dashboard/src/utils/validation.ts`
  (single-pass `validateAndClean` with per-customer running state).

This file gives a shallow embedding of both, with:

* JavaScript `Map` modelled as an insertion-ordered association list
  (`JsMap`), and JavaScript `Set` as a list used only through membership;
* JavaScript numbers modelled as `Rat` (the code never relies on float
  rounding in the properties verified here) and integer-valued fields as
  `Int`;
* JavaScript `Date` values modelled by their `getTime()` millisecond
  timestamp (`Int`), with `none : Option Int` standing for a null or
  invalid date.
-/

namespace Banking

/-! ## JavaScript Map model

A JavaScript `Map` preserves insertion order; `set` on an existing key
updates the entry in place, `set` on a fresh key appends at the end.
`get` returns the value of the (unique) entry with the key. The maps
built below always start empty, so keys are unique by construction and
the in-place update of `mapSet` hits exactly the entry for the key. -/

abbrev JsMap (K V : Type) := List (K × V)

def mapGet {K V : Type} [DecidableEq K] (m : JsMap K V) (k : K) : Option V :=
  (m.find? (fun p => p.1 = k)).map (·.2)

def mapSet {K V : Type} [DecidableEq K] : JsMap K V → K → V → JsMap K V
  | [], k, v => [(k, v)]
  | p :: m, k, v => if p.1 = k then (k, v) :: m else p :: mapSet m k v

def mapKeys {K V : Type} (m : JsMap K V) : List K := m.map (·.1)

theorem mapGet_nil {K V : Type} [DecidableEq K] (k : K) :
    mapGet ([] : JsMap K V) k = none := rfl

theorem mapGet_cons {K V : Type} [DecidableEq K] (p : K × V) (m : JsMap K V) (k : K) :
    mapGet (p :: m) k = if p.1 = k then some p.2 else mapGet m k := by
  by_cases h : p.1 = k <;> simp [mapGet, List.find?_cons, h]

theorem mapGet_isSome_iff {K V : Type} [DecidableEq K] (m : JsMap K V) (k : K) :
    (mapGet m k).isSome = true ↔ k ∈ mapKeys m := by
  induction m with
  | nil => simp [mapGet, mapKeys]
  | cons p m ih =>
    rw [mapGet_cons]
    by_cases h : p.1 = k
    · simp [mapKeys, h]
    · simp only [if_neg h, ih, mapKeys, List.map_cons, List.mem_cons]
      constructor
      · intro hm; exact Or.inr hm
      · rintro (he | hm)
        · exact absurd he.symm h
        · exact hm

theorem mapGet_eq_none_iff {K V : Type} [DecidableEq K] (m : JsMap K V) (k : K) :
    mapGet m k = none ↔ k ∉ mapKeys m := by
  rw [← mapGet_isSome_iff (m := m) (k := k)]
  cases mapGet m k <;> simp

theorem mapGet_set_self {K V : Type} [DecidableEq K] (m : JsMap K V) (k : K) (v : V) :
    mapGet (mapSet m k v) k = some v := by
  induction m with
  | nil => simp [mapSet, mapGet_cons]
  | cons p m ih =>
    by_cases h : p.1 = k
    · simp [mapSet, h, mapGet_cons]
    · simpa [mapSet, h, mapGet_cons] using ih

theorem mapGet_set_ne {K V : Type} [DecidableEq K] (m : JsMap K V) (k k' : K) (v : V)
    (h : k' ≠ k) : mapGet (mapSet m k v) k' = mapGet m k' := by
  induction m with
  | nil =>
    have h1 : ¬ ((k, v).1 = k') := fun e => h e.symm
    simp [mapSet, mapGet_cons, mapGet_nil, h1]
  | cons p m ih =>
    by_cases hpk : p.1 = k
    · have h1 : ¬ ((k, v).1 = k') := fun e => h e.symm
      have h2 : ¬ (p.1 = k') := by rw [hpk]; exact fun e => h e.symm
      simp [mapSet, hpk, mapGet_cons, h1, h2]
    · by_cases hpk' : p.1 = k'
      · simp [mapSet, hpk, mapGet_cons, hpk', h]
      · simp [mapSet, hpk, mapGet_cons, hpk', ih]

theorem mapKeys_cons {K V : Type} (p : K × V) (m : JsMap K V) :
    mapKeys (p :: m) = p.1 :: mapKeys m := rfl

theorem mapKeys_set {K V : Type} [DecidableEq K] (m : JsMap K V) (k : K) (v : V) :
    mapKeys (mapSet m k v) = if k ∈ mapKeys m then mapKeys m else mapKeys m ++ [k] := by
  induction m with
  | nil => simp [mapSet, mapKeys]
  | cons p m ih =>
    by_cases hpk : p.1 = k
    · simp [mapSet, hpk, mapKeys]
    · have hne : ¬ k = p.1 := fun e => hpk e.symm
      simp only [mapSet, if_neg hpk, mapKeys_cons, ih]
      by_cases hm : k ∈ mapKeys m
      · rw [if_pos hm, if_pos (by simp [hm])]
      · rw [if_neg hm, if_neg (by simp [hne, hm]), List.cons_append]

/-! ## Enumerated field types (`src/lib/types.ts`) -/

inductive Gender where
  | Male | Female | Other
deriving DecidableEq, Repr

inductive TransactionType where
  | Deposit | Withdrawal | Transfer
deriving DecidableEq, Repr

inductive AccountType where
  | Current | Savings
deriving DecidableEq, Repr

/-! ## String primitives

Models of the JavaScript string/number primitives the parsers use.
`Rat` stands for the JS number type; the strings fed to these parsers in
the claims never exercise float rounding, nonfinite literals
(`Infinity`) or precision loss, which are outside this model. -/

def isJsWs (c : Char) : Bool :=
  c = ' ' ∨ c = '\t' ∨ c = '\n' ∨ c = '\r' ∨ c = Char.ofNat 12 ∨ c = Char.ofNat 11

/-- Model of `String.prototype.trim`: strip whitespace at both ends. -/
def jsTrim (s : String) : String :=
  (((s.toList.dropWhile isJsWs).reverse.dropWhile isJsWs).reverse).asString

/-- Splitting a character list at every separator character (empty
segments preserved, as with the JS `split`). -/
def splitCharsOn (p : Char → Bool) : List Char → List (List Char)
  | [] => [[]]
  | c :: cs =>
    if p c then [] :: splitCharsOn p cs
    else match splitCharsOn p cs with
      | [] => [[c]]
      | g :: gs => (c :: g) :: gs

/-- ASCII model of `String.prototype.toUpperCase` (the inputs compared
against `"N/A"` are ASCII). -/
def jsToUpper (s : String) : String :=
  (s.toList.map (fun c =>
    if 'a' ≤ c ∧ c ≤ 'z' then Char.ofNat (c.toNat - 32) else c)).asString

/-- ASCII model of `String.prototype.toLowerCase`. -/
def jsToLower (s : String) : String :=
  (s.toList.map (fun c =>
    if 'A' ≤ c ∧ c ≤ 'Z' then Char.ofNat (c.toNat + 32) else c)).asString

def natFromDigits (ds : List Char) : Nat :=
  ds.foldl (fun n c => 10 * n + (c.toNat - 48)) 0

/-- Model of `parseInt(v, 10)`: skip leading whitespace, optional sign,
then a maximal run of decimal digits; `none` stands for `NaN`. -/
def jsParseIntDec (s : String) : Option Int :=
  let cs := s.toList.dropWhile isJsWs
  let sgn : Int := match cs with
    | '-' :: _ => -1
    | _ => 1
  let cs1 : List Char := match cs with
    | '+' :: t => t
    | '-' :: t => t
    | _ => cs
  let digits := cs1.takeWhile Char.isDigit
  if digits = [] then none else some (sgn * (natFromDigits digits : Int))

/-- Exponent part after an `e`/`E` in a float literal: optional sign and
digits; an `e` not followed by digits is not part of the number, so it
contributes exponent `0`. -/
def jsFloatExp (t : List Char) : Int :=
  let (esgn, t1) : Int × List Char := match t with
    | '+' :: u => (1, u)
    | '-' :: u => (-1, u)
    | _ => (1, t)
  let ds := t1.takeWhile Char.isDigit
  if ds = [] then 0 else esgn * (natFromDigits ds : Int)

/-- Model of `parseFloat`: skip leading whitespace, optional sign, then
the longest prefix of the form `digits [. digits] [e [sign] digits]`
(with at least one mantissa digit); `none` stands for `NaN`. -/
def jsParseFloat (s : String) : Option ℚ :=
  let cs := s.toList.dropWhile isJsWs
  let sgn : ℚ := match cs with
    | '-' :: _ => -1
    | _ => 1
  let cs1 : List Char := match cs with
    | '+' :: t => t
    | '-' :: t => t
    | _ => cs
  let ipart := cs1.takeWhile Char.isDigit
  let rest1 := cs1.dropWhile Char.isDigit
  let fpart : List Char := match rest1 with
    | '.' :: t => t.takeWhile Char.isDigit
    | _ => []
  let rest2 : List Char := match rest1 with
    | '.' :: t => t.dropWhile Char.isDigit
    | _ => rest1
  if ipart = [] ∧ fpart = [] then none
  else
    let mant : ℚ := (natFromDigits ipart : ℚ) + (natFromDigits fpart : ℚ) / (10 : ℚ) ^ fpart.length
    let expo : Int := match rest2 with
      | 'e' :: t => jsFloatExp t
      | 'E' :: t => jsFloatExp t
      | _ => 0
    some (sgn * mant * (10 : ℚ) ^ expo)

/-! ## Field parsers (`src/lib/dataProcessing/parser.ts`) -/

/-- Embedding of `parseAmount` (parser.ts): empty, whitespace-only and
`"N/A"` inputs give `0`; otherwise currency symbols, commas and
whitespace are stripped (regex `[$€£¥,\s]`) and the remainder goes
through `parseFloat`, with `NaN` mapped back to `0`. -/
def parseAmount (amount : String) : ℚ :=
  if amount = "" ∨ jsTrim amount = "" ∨ jsToUpper amount = "N/A" then 0
  else
    let cleaned := (amount.toList.filter
      (fun c => ¬ (c = '$' ∨ c = '€' ∨ c = '£' ∨ c = '¥' ∨ c = ',' ∨ isJsWs c))).asString
    (jsParseFloat cleaned).getD 0

/-- Embedding of `normalizeGender` (parser.ts). -/
def normalizeGender (gender : String) : Gender :=
  if gender = "" ∨ jsTrim gender = "" then Gender.Other
  else
    let normalized := jsTrim (jsToLower gender)
    if normalized = "m" ∨ normalized = "male" ∨ normalized = "man" then Gender.Male
    else if normalized = "f" ∨ normalized = "female" ∨ normalized = "woman" then Gender.Female
    else Gender.Other

/-- Embedding of `parseTransactionType` (parser.ts): `undefined` on
unrecognized input (strict variant). -/
def parseTransactionType (type : String) : Option TransactionType :=
  if type = "" then none
  else
    let normalized := jsTrim (jsToLower type)
    if normalized = "deposit" then some TransactionType.Deposit
    else if normalized = "withdrawal" then some TransactionType.Withdrawal
    else if normalized = "transfer" then some TransactionType.Transfer
    else none

/-- Embedding of `parseAccountType` (parser.ts). -/
def parseAccountType (type : String) : Option AccountType :=
  if type = "" then none
  else
    let normalized := jsTrim (jsToLower type)
    if normalized = "current" ∨ normalized = "checking" then some AccountType.Current
    else if normalized = "savings" then some AccountType.Savings
    else none

/-- Embedding of `parseInteger` (parser.ts): `0` on empty or
non-numeric input (the code turns `NaN` into `0`). -/
def parseInteger (value : String) : Int :=
  if value = "" ∨ jsTrim value = "" then 0
  else (jsParseIntDec value).getD 0

/-- Test of the regex `^[^\s@]+@[^\s@]+\.[^\s@]+$` used by `parseEmail`:
exactly one `@`, a nonempty whitespace-free local part, and a domain
containing a dot with at least one character on each side. -/
def emailRegexTest (s : String) : Bool :=
  match splitCharsOn (fun c => c = '@') s.toList with
  | [ac, bc] =>
    ac ≠ [] ∧ ac.all (fun c => ¬ isJsWs c) ∧ bc.all (fun c => ¬ isJsWs c) ∧
      (List.range bc.length).any (fun j => 0 < j ∧ j + 1 < bc.length ∧ bc.getD j ' ' = '.')
  | _ => false

/-- Embedding of `parseEmail` (parser.ts). -/
def parseEmail (email : String) : String :=
  if email = "" then ""
  else
    let trimmed := jsToLower (jsTrim email)
    if emailRegexTest trimmed then trimmed else ""

/-- Embedding of `parsePhone` (parser.ts): trim, then drop every
character that is not a digit or `+` (regex `[^\d+]`). -/
def parsePhone (phone : String) : String :=
  if phone = "" then ""
  else ((jsTrim phone).toList.filter (fun c => c.isDigit ∨ c = '+')).asString

/-! ## Date model

`parseDate` (parser.ts) first calls `new Date(dateString)` and falls
back to re-assembled `Y-M-D` strings from `MM/DD/YYYY` and `DD/MM/YYYY`
shaped inputs. ECMA-262 only mandates the ISO 8601 date format for the
`Date` constructor; `jsNewDate` models the constructor on calendar-date
strings `YYYY-MM-DD` (month and day allowed 1 or 2 digits, as the
fallback path builds unpadded components; the engines this app targets
accept those), mapped to the UTC millisecond timestamp, and returns
`none` (an invalid `Date`) on anything else. Timestamps use the
standard civil-from-days calendar computation. -/

def isLeapYear (y : Int) : Bool :=
  y % 4 = 0 ∧ (y % 100 ≠ 0 ∨ y % 400 = 0)

def daysInMonth (y m : Int) : Int :=
  if m = 2 then (if isLeapYear y then 29 else 28)
  else if m = 4 ∨ m = 6 ∨ m = 9 ∨ m = 11 then 30
  else 31

/-- Days since 1970-01-01 of a civil date (valid for positive years). -/
def daysFromCivil (y m d : Int) : Int :=
  let y1 := if m ≤ 2 then y - 1 else y
  let era := y1 / 400
  let yoe := y1 - era * 400
  let mp := if 2 < m then m - 3 else m + 9
  let doy := (153 * mp + 2) / 5 + d - 1
  let doe := yoe * 365 + yoe / 4 - yoe / 100 + doy
  era * 146097 + doe - 719468

/-- Model of `new Date(string)` restricted to `Y-M-D` calendar-date
strings (see the section comment). -/
def jsNewDate (s : String) : Option Int :=
  match splitCharsOn (fun c => c = '-') s.toList with
  | [ys, ms, ds] =>
    if ys ≠ [] ∧ ms ≠ [] ∧ ds ≠ [] ∧ ys.all Char.isDigit ∧ ms.all Char.isDigit ∧
        ds.all Char.isDigit ∧ ys.length = 4 ∧ ms.length ≤ 2 ∧ ds.length ≤ 2 then
      let y : Int := natFromDigits ys
      let m : Int := natFromDigits ms
      let d : Int := natFromDigits ds
      if 1 ≤ m ∧ m ≤ 12 ∧ 1 ≤ d ∧ d ≤ daysInMonth y m then
        some (daysFromCivil y m d * 86400000)
      else none
    else none
  | _ => none

/-- Model of splitting a string at every slash or dash (the regex-based
split in `parseDate`). -/
def splitSlashDash (s : String) : List String :=
  (splitCharsOn (fun c => c = '/' ∨ c = '-') s.toList).map List.asString

/-- Embedding of `parseDate` (parser.ts): empty/`"N/A"` to `none`; try
the `Date` constructor, then the `MM/DD/YYYY` and `DD/MM/YYYY`
re-assemblies; `none` when all attempts fail. -/
def parseDate (dateString : String) : Option Int :=
  if dateString = "" ∨ jsTrim dateString = "" ∨ jsToUpper dateString = "N/A" then none
  else
    match jsNewDate dateString with
    | some t => some t
    | none =>
      let parts := splitSlashDash dateString
      if parts.length = 3 then
        match jsNewDate (parts.getD 2 "" ++ "-" ++ parts.getD 0 "" ++ "-" ++ parts.getD 1 "") with
        | some t => some t
        | none => jsNewDate (parts.getD 2 "" ++ "-" ++ parts.getD 1 "" ++ "-" ++ parts.getD 0 "")
      else none

/-! ## Records (`src/lib/types.ts`)

`RawBankingRecord` is a CSV row: every field is the raw string under the
corresponding column header (papaparse yields `""` for empty cells, so
an absent value is the empty string). -/

structure RawBankingRecord where
  customerId : String          -- column "Customer ID"
  firstName : String           -- column "First Name"
  lastName : String            -- column "Last Name"
  age : String                 -- column "Age"
  gender : String              -- column "Gender"
  address : String             -- column "Address"
  city : String                -- column "City"
  contactNumber : String       -- column "Contact Number"
  email : String               -- column "Email"
  accountType : String         -- column "Account Type"
  accountBalance : String      -- column "Account Balance"
  dateOfAccountOpening : String -- column "Date Of Account Opening"
  lastTransactionDate : String -- column "Last Transaction Date"
  transactionID : String       -- column "TransactionID"
  transactionDate : String     -- column "Transaction Date"
  transactionType : String     -- column "Transaction Type"
  transactionAmount : String   -- column "Transaction Amount"
  accountBalanceAfterTransaction : String -- column "Account Balance After Transaction"
  branchId : String            -- column "Branch ID"
  loanId : String              -- column "Loan ID"
  loanAmount : String          -- column "Loan Amount"
  loanType : String            -- column "Loan Type"
  interestRate : String        -- column "Interest Rate"
  loanTerm : String            -- column "Loan Term"
  approvalRejectionDate : String -- column "Approval/Rejection Date"
  loanStatus : String          -- column "Loan Status"
  cardID : String              -- column "CardID"
  cardType : String            -- column "Card Type"
  creditLimit : String         -- column "Credit Limit"
  creditCardBalance : String   -- column "Credit Card Balance"
  minimumPaymentDue : String   -- column "Minimum Payment Due"
  paymentDueDate : String      -- column "Payment Due Date"
  lastCreditCardPaymentDate : String -- column "Last Credit Card Payment Date"
  rewardsPoints : String       -- column "Rewards Points"
  feedbackID : String          -- column "Feedback ID"
  feedbackDate : String        -- column "Feedback Date"
  feedbackType : String        -- column "Feedback Type"
  resolutionStatus : String    -- column "Resolution Status"
  resolutionDate : String      -- column "Resolution Date"
  anomaly : String             -- column "Anomaly"
deriving DecidableEq, Repr

/-- The typed record after cleaning (`CleanedTransaction` of
`src/lib/types.ts`). Dates are `getTime()` timestamps; the
`transactionDate` is an `Option` so that a null/invalid date object can
be represented (the validator checks for it). -/
structure CleanedTransaction where
  customerId : Int
  firstName : String
  lastName : String
  age : Int
  gender : Gender
  address : String
  city : String
  contactNumber : String
  email : String
  accountType : AccountType
  accountBalance : ℚ
  accountOpeningDate : Int
  lastTransactionDate : Int
  transactionId : Int
  transactionDate : Option Int
  transactionType : TransactionType
  transactionAmount : ℚ
  accountBalanceAfterTransaction : ℚ
  branchId : String
  loanId : Option Int := none
  loanAmount : Option ℚ := none
  loanType : Option String := none
  interestRate : Option ℚ := none
  loanTerm : Option Int := none
  loanApprovalDate : Option Int := none
  loanStatus : Option String := none
  cardId : Option Int := none
  cardType : Option String := none
  creditLimit : Option ℚ := none
  creditCardBalance : Option ℚ := none
  minimumPaymentDue : Option ℚ := none
  paymentDueDate : Option Int := none
  lastCreditCardPaymentDate : Option Int := none
  rewardsPoints : Option Int := none
  feedbackId : Option Int := none
  feedbackDate : Option Int := none
  feedbackType : Option String := none
  resolutionStatus : Option String := none
  resolutionDate : Option Int := none
  anomaly : Option Int := none
deriving DecidableEq, Repr

/-! ## Record cleaner (`src/lib/dataProcessing/dataCleaner.ts`) -/

/-- Embedding of `cleanRecord`. `now` is the timestamp of `new Date()`
used as default for the two non-optional date fields. Notes kept from
the source:

* the rejection test is JS truthiness, so `customerId`, `transactionId`
  and `age` reject exactly when they parse to `0`, and `transactionDate`
  when `parseDate` gives null;
* `parseAmount` is total (it returns `0`, never `undefined`), so the
  `transactionAmount === undefined` and
  `accountBalanceAfterTransaction === undefined` tests never fire;
* the surrounding `try`/`catch` is dead in this model because every
  parser is total;
* an optional field whose parse gives a falsy value (`0`, `null`, empty
  string) is left absent. -/
def cleanRecord (now : Int) (raw : RawBankingRecord) : Option CleanedTransaction :=
  let customerId := parseInteger raw.customerId
  let transactionId := parseInteger raw.transactionID
  let transactionDate := parseDate raw.transactionDate
  let age := parseInteger raw.age
  let transactionAmount := parseAmount raw.transactionAmount
  let accountBalanceAfterTransaction := parseAmount raw.accountBalanceAfterTransaction
  if customerId = 0 ∨ transactionId = 0 ∨ transactionDate = none ∨ age = 0 then none
  else
    match parseTransactionType raw.transactionType, parseAccountType raw.accountType with
    | some transactionType, some accountType =>
      some
        { customerId
          firstName := jsTrim raw.firstName
          lastName := jsTrim raw.lastName
          age
          gender := normalizeGender raw.gender
          address := jsTrim raw.address
          city := jsTrim raw.city
          contactNumber := parsePhone raw.contactNumber
          email := parseEmail raw.email
          accountType
          accountBalance := parseAmount raw.accountBalance
          accountOpeningDate := (parseDate raw.dateOfAccountOpening).getD now
          lastTransactionDate := (parseDate raw.lastTransactionDate).getD now
          transactionId
          transactionDate
          transactionType
          transactionAmount
          accountBalanceAfterTransaction
          branchId := jsTrim raw.branchId
          loanId := mkNum (parseInteger raw.loanId)
          loanAmount := mkAmt (parseAmount raw.loanAmount)
          loanType := mkStr raw.loanType
          interestRate := mkAmt (parseAmount raw.interestRate)
          loanTerm := mkNum (parseInteger raw.loanTerm)
          loanApprovalDate := parseDate raw.approvalRejectionDate
          loanStatus := mkStr raw.loanStatus
          cardId := mkNum (parseInteger raw.cardID)
          cardType := mkStr raw.cardType
          creditLimit := mkAmt (parseAmount raw.creditLimit)
          creditCardBalance := mkAmt (parseAmount raw.creditCardBalance)
          minimumPaymentDue := mkAmt (parseAmount raw.minimumPaymentDue)
          paymentDueDate := parseDate raw.paymentDueDate
          lastCreditCardPaymentDate := parseDate raw.lastCreditCardPaymentDate
          rewardsPoints := mkNum (parseInteger raw.rewardsPoints)
          feedbackId := mkNum (parseInteger raw.feedbackID)
          feedbackDate := parseDate raw.feedbackDate
          feedbackType := mkStr raw.feedbackType
          resolutionStatus := mkStr raw.resolutionStatus
          resolutionDate := parseDate raw.resolutionDate
          anomaly := mkNum (parseInteger raw.anomaly) }
    | _, _ => none
where
  /-- `if (v) cleaned.f = v` for a parsed integer: present iff nonzero. -/
  mkNum (v : Int) : Option Int := if v ≠ 0 then some v else none
  /-- `if (v) cleaned.f = v` for a parsed amount: present iff nonzero. -/
  mkAmt (v : ℚ) : Option ℚ := if v ≠ 0 then some v else none
  /-- `if (raw.f) cleaned.f = raw.f.trim()`: present iff nonempty. -/
  mkStr (s : String) : Option String := if s ≠ "" then some (jsTrim s) else none

/-! ## Validator (`src/lib/dataProcessing/validator.ts`)

`Reason` mirrors the distinct `reason` strings the validator emits; a
constructor argument stands for a value interpolated into the message
(e.g. the expected/observed balances, rendered with `toFixed(2)` in the
source). `ValidationError` drops the `value: any` diagnostic copy of the
offending field, which no code path reads. -/

inductive Severity where
  | error | warning
deriving DecidableEq, Repr

inductive Reason where
  | depositNotPositive                      -- "Deposit amount must be positive"
  | balanceMismatch (expected got : ℚ)       -- the balance-reconciliation message
  | ageOutOfRange (age : Int)               -- "Age ... is outside valid range (18-120)"
  | customerIdInvalid                       -- "Customer ID must be a positive number"
  | transactionIdInvalid                    -- "Transaction ID must be a positive number"
  | invalidDate                             -- "Invalid transaction date"
  | negativeAmount                          -- "Transaction amount cannot be negative"
  | negativeBalanceAfter                    -- "Account balance cannot be negative after transaction"
deriving DecidableEq, Repr

structure ValidationError where
  recordIndex : Nat
  field : String
  reason : Reason
  severity : Severity
deriving DecidableEq, Repr

/-- Embedding of `calculateExpectedBalance`: for transfers the source
assumes a withdrawal ("we might need more context, but assume withdrawal
for now"). -/
def calculateExpectedBalance (balanceBefore : ℚ) (transactionType : TransactionType)
    (amount : ℚ) : ℚ :=
  match transactionType with
  | TransactionType.Deposit => balanceBefore + amount
  | TransactionType.Withdrawal => balanceBefore - amount
  | TransactionType.Transfer => balanceBefore - amount

/-- Embedding of `validateTransaction`: the eight rule blocks, in source
order, each contributing at most one error. JS truthiness notes:
`!customerId || customerId <= 0` is `customerId ≤ 0` over integers, and
likewise for `transactionId`; `!transactionDate || isNaN(getTime())` is
`transactionDate = none`. -/
def validateTransaction (transaction : CleanedTransaction) (index : Nat) :
    List ValidationError :=
  (if transaction.transactionType = TransactionType.Deposit ∧ transaction.transactionAmount ≤ 0
   then [⟨index, "transactionAmount", Reason.depositNotPositive, Severity.error⟩] else [])
  ++
  (if 1/100 < |transaction.accountBalanceAfterTransaction -
      calculateExpectedBalance transaction.accountBalance transaction.transactionType
        transaction.transactionAmount|
   then [⟨index, "accountBalanceAfterTransaction",
          Reason.balanceMismatch
            (calculateExpectedBalance transaction.accountBalance transaction.transactionType
              transaction.transactionAmount)
            transaction.accountBalanceAfterTransaction,
          Severity.error⟩]
   else [])
  ++
  (if transaction.age < 18 ∨ 120 < transaction.age
   then [⟨index, "age", Reason.ageOutOfRange transaction.age, Severity.error⟩] else [])
  ++
  (if transaction.customerId ≤ 0
   then [⟨index, "customerId", Reason.customerIdInvalid, Severity.error⟩] else [])
  ++
  (if transaction.transactionId ≤ 0
   then [⟨index, "transactionId", Reason.transactionIdInvalid, Severity.error⟩] else [])
  ++
  (if transaction.transactionDate = none
   then [⟨index, "transactionDate", Reason.invalidDate, Severity.error⟩] else [])
  ++
  (if transaction.transactionAmount < 0
   then [⟨index, "transactionAmount", Reason.negativeAmount, Severity.error⟩] else [])
  ++
  (if transaction.accountBalanceAfterTransaction < 0
   then [⟨index, "accountBalanceAfterTransaction", Reason.negativeBalanceAfter,
          Severity.warning⟩]
   else [])

structure ValidationSummary where
  totalRecords : Nat
  validRecords : Nat
  invalidRecords : Nat
  errorsByType : JsMap Reason Nat
deriving DecidableEq, Repr

structure ValidationResult where
  valid : List CleanedTransaction
  invalid : List ValidationError
  summary : ValidationSummary
deriving DecidableEq, Repr

/-- The `forEach` body of `validateDataset`: accumulator is
`(valid, invalid, errorsByType, index)`. A record joins `valid` exactly
when `validateTransaction` returns no errors (of either severity). -/
def validateStep
    (acc : List CleanedTransaction × List ValidationError × JsMap Reason Nat × Nat)
    (transaction : CleanedTransaction) :
    List CleanedTransaction × List ValidationError × JsMap Reason Nat × Nat :=
  let (valid, invalid, errorsByType, i) := acc
  let errors := validateTransaction transaction i
  if errors = [] then (valid ++ [transaction], invalid, errorsByType, i + 1)
  else (valid, invalid ++ errors,
        errors.foldl (fun m e => mapSet m e.reason ((mapGet m e.reason).getD 0 + 1)) errorsByType,
        i + 1)

/-- Embedding of `validateDataset`. -/
def validateDataset (data : List CleanedTransaction) : ValidationResult :=
  let r := data.foldl validateStep ([], [], [], 0)
  { valid := r.1
    invalid := r.2.1
    summary :=
      { totalRecords := data.length
        validRecords := r.1.length
        invalidRecords := data.length - r.1.length
        errorsByType := r.2.2.1 } }

/-! ## Edge cases: inconsistent ages (`handleInconsistentAges`) -/

/-- Distinct values in first-encounter order: the model of
`Array.from(new Set(values))` (a JS `Set` iterates in insertion
order). -/
def distinctVals : List Int → List Int
  | [] => []
  | x :: xs => x :: distinctVals (xs.filter (fun y => y ≠ x))
  termination_by l => l.length
  decreasing_by simp only [List.length_cons]; exact Nat.lt_succ_of_le (xs.length_filter_le _)

/-- Embedding of `calculateMode`: build the frequency `Map` (insertion
order is first-occurrence order), then scan it keeping the first entry
whose frequency strictly exceeds the running maximum (initial maximum
`0`, initial mode `numbers[0]`). -/
def calculateMode (numbers : List Int) : Int :=
  let frequency := numbers.foldl
    (fun m num => mapSet m num ((mapGet m num).getD 0 + 1)) ([] : JsMap Int Nat)
  (frequency.foldl
    (fun acc e => if acc.1 < e.2 then (e.2, e.1) else acc)
    ((0 : Nat), numbers.headD 0)).2

structure AgeCorrection where
  customerId : Int
  ages : List Int
  correctedTo : Int
deriving DecidableEq, Repr

structure AgeResult where
  corrected : List CleanedTransaction
  corrections : List AgeCorrection
deriving DecidableEq, Repr

/-- The grouping `forEach` of `handleInconsistentAges`: customer id to
the list of ages of that customer in record order. -/
def groupAges (data : List CleanedTransaction) : JsMap Int (List Int) :=
  data.foldl
    (fun m transaction =>
      mapSet m transaction.customerId
        ((mapGet m transaction.customerId).getD [] ++ [transaction.age]))
    []

/-- The body of the correction-collecting `forEach` of
`handleInconsistentAges`. -/
def correctionStep (acc : JsMap Int Int × List AgeCorrection) (e : Int × List Int) :
    JsMap Int Int × List AgeCorrection :=
  let uniqueAges := distinctVals e.2
  if 1 < uniqueAges.length then
    let mode := calculateMode e.2
    (mapSet acc.1 e.1 mode, acc.2 ++ [⟨e.1, uniqueAges, mode⟩])
  else acc

/-- The correction-collecting `forEach` of `handleInconsistentAges`,
iterating the grouped map in insertion order. -/
def collectCorrections (customerAges : JsMap Int (List Int)) :
    JsMap Int Int × List AgeCorrection :=
  customerAges.foldl correctionStep ([], [])

/-- Embedding of `handleInconsistentAges`. -/
def handleInconsistentAges (data : List CleanedTransaction) : AgeResult :=
  let customerAges := groupAges data
  let r := collectCorrections customerAges
  let corrected := data.map (fun transaction =>
    match mapGet r.1 transaction.customerId with
    | some correctedAge => { transaction with age := correctedAge }
    | none => transaction)
  { corrected, corrections := r.2 }

/-! ## Edge cases: duplicates (`removeDuplicateTransactions`) -/

/-- The dedup key template
`customerId-getTime()-transactionAmount-transactionType`. The numeric
renderings stand for the JS template-string interpolations; like those,
they are injective on the component values. An invalid date renders as
`NaN`. -/
def transKey (transaction : CleanedTransaction) : String :=
  toString transaction.customerId ++ "-" ++
  (match transaction.transactionDate with
   | some t => toString t
   | none => "NaN") ++ "-" ++
  toString transaction.transactionAmount ++ "-" ++
  (match transaction.transactionType with
   | TransactionType.Deposit => "Deposit"
   | TransactionType.Withdrawal => "Withdrawal"
   | TransactionType.Transfer => "Transfer")

structure DedupResult where
  unique : List CleanedTransaction
  duplicates : List CleanedTransaction
deriving DecidableEq, Repr

/-- The `forEach` of `removeDuplicateTransactions`, with the `seen` set
modelled as the list of keys added so far (used only through
membership). -/
def dedupGo (seen : List String) : List CleanedTransaction → DedupResult
  | [] => ⟨[], []⟩
  | transaction :: rest =>
    let key := transKey transaction
    if key ∈ seen then
      let r := dedupGo seen rest
      ⟨r.unique, transaction :: r.duplicates⟩
    else
      let r := dedupGo (key :: seen) rest
      ⟨transaction :: r.unique, r.duplicates⟩

/-- Embedding of `removeDuplicateTransactions`. -/
def removeDuplicateTransactions (data : List CleanedTransaction) : DedupResult :=
  dedupGo [] data

/-! ## Anomaly detection (`src/lib/dataProcessing/aggregator.ts`) -/

/-- The five anomaly signals, in evaluation order. A constructor stands
for the reason string pushed by the corresponding block (display-only
interpolated values, such as the z-score, are not carried). -/
inductive AnomalyReason where
  | flaggedSource              -- "Flagged as anomaly in source data"
  | deviationFromMean          -- "Amount is ... standard deviations from mean"
  | exceedsCustomerAvg         -- the message about 5x the customer average
  | significantNegativeBalance -- "Results in significant negative balance"
  | rapidWithdrawals           -- "Multiple withdrawals in 24 hours"
deriving DecidableEq, Repr

structure AnomalousTransaction where
  transaction : CleanedTransaction
  anomalyScore : Int
  anomalyReasons : List AnomalyReason
deriving DecidableEq, Repr

/-- The customer-grouping `forEach` of `detectAnomalousTransactions`. -/
def groupByCustomer (data : List CleanedTransaction) :
    JsMap Int (List CleanedTransaction) :=
  data.foldl
    (fun m t => mapSet m t.customerId ((mapGet m t.customerId).getD [] ++ [t]))
    []

/-- The 24-hour window test on two `getTime()` values. With an invalid
date the JS comparison is against `NaN` and is false. -/
def timeWithin24h (d1 d2 : Option Int) : Bool :=
  match d1, d2 with
  | some a, some b => |a - b| < 24 * 60 * 60 * 1000
  | _, _ => false

/-- The per-record body of the detection `forEach`: the reasons pushed
and the accumulated `anomalyScore`.

The source compares `zScore = |amount - mean| / stdDev` (with
`stdDev = sqrt variance`) against 3. Over the nonnegative reals that is
`(amount - mean)^2 > 9 * variance`, which is the form used here; it also
matches JS when `stdDev = 0`, where the division gives `Infinity`
(comparison true) for `amount ≠ mean` and `NaN` (comparison false) for
`amount = mean`. -/
def anomalyEval (mean variance : ℚ)
    (customerTransactions : JsMap Int (List CleanedTransaction))
    (transaction : CleanedTransaction) : List AnomalyReason × Int :=
  let r1 : List AnomalyReason × Int :=
    if transaction.anomaly = some 1 then ([AnomalyReason.flaggedSource], 50) else ([], 0)
  let r2 :=
    if 9 * variance < (transaction.transactionAmount - mean) ^ 2 then
      (r1.1 ++ [AnomalyReason.deviationFromMean], r1.2 + 30)
    else r1
  let customerTxns := (mapGet customerTransactions transaction.customerId).getD []
  let r3 :=
    if 1 < customerTxns.length then
      let customerAmounts := customerTxns.map (·.transactionAmount)
      let customerMean := customerAmounts.sum / (customerAmounts.length : ℚ)
      if customerMean * 5 < transaction.transactionAmount then
        (r2.1 ++ [AnomalyReason.exceedsCustomerAvg], r2.2 + 20)
      else r2
    else r2
  let r4 :=
    if transaction.accountBalanceAfterTransaction < -1000 then
      (r3.1 ++ [AnomalyReason.significantNegativeBalance], r3.2 + 25)
    else r3
  let recentWithdrawals := customerTxns.filter
    (fun t => t.transactionType = TransactionType.Withdrawal ∧
      timeWithin24h t.transactionDate transaction.transactionDate)
  if 5 < recentWithdrawals.length then
    (r4.1 ++ [AnomalyReason.rapidWithdrawals], r4.2 + 15)
  else r4

/-- Stable insertion of one element into a score-descending list: the
model of one step of `Array.prototype.sort` (stable since ES2019) with
comparator `(a, b) => b.anomalyScore - a.anomalyScore`. -/
def insertByScore (x : AnomalousTransaction) :
    List AnomalousTransaction → List AnomalousTransaction
  | [] => [x]
  | y :: ys =>
    if y.anomalyScore ≤ x.anomalyScore then x :: y :: ys else y :: insertByScore x ys

def sortByScoreDesc : List AnomalousTransaction → List AnomalousTransaction
  | [] => []
  | x :: xs => insertByScore x (sortByScoreDesc xs)

/-- The dataset-wide mean of `transactionAmount` (the `mean` const of
`detectAnomalousTransactions`). -/
def meanAmount (data : List CleanedTransaction) : ℚ :=
  (data.map (·.transactionAmount)).sum / ((data.map (·.transactionAmount)).length : ℚ)

/-- The dataset-wide variance (square of the `stdDev` const of
`detectAnomalousTransactions`). -/
def varianceAmount (data : List CleanedTransaction) : ℚ :=
  ((data.map (·.transactionAmount)).map (fun amt => (amt - meanAmount data) ^ 2)).sum
    / ((data.map (·.transactionAmount)).length : ℚ)

/-- Embedding of `detectAnomalousTransactions`: dataset statistics,
per-record scoring (pushed only when at least one reason fired), then
the score-descending sort. -/
def detectAnomalousTransactions (data : List CleanedTransaction) :
    List AnomalousTransaction :=
  let customerTransactions := groupByCustomer data
  let anomalies := data.filterMap (fun transaction =>
    let r := anomalyEval (meanAmount data) (varianceAmount data) customerTransactions
      transaction
    if r.1 = [] then none
    else some ⟨transaction, r.2, r.1⟩)
  sortByScoreDesc anomalies

/-! ## Dashboard variant (`banking-dashboard/src/utils/validation.ts`)

The dashboard pipeline has its own record type (optional fields, string
transaction ids, a six-valued transaction type) and a single-pass
`validateAndClean` loop. The per-row body of that loop, for a row that
`rowToCleaned` admitted, is embedded as `vcStep` below. -/

inductive TransactionTypeB where
  | deposit | withdrawal | transfer | payment | fee | other
deriving DecidableEq, Repr

/-- The dashboard `CleanedTransaction` (`banking-dashboard/src/types.ts`);
`rowToCleaned` guarantees a finite `customerId`, a valid
`transactionDate` and a finite `transactionAmount`. The `raw` back
pointer is omitted (diagnostic only). -/
structure CleanedTransactionB where
  customerId : ℚ
  name : Option String := none
  age : Option Int := none
  gender : Option Gender := none
  accountType : Option String := none
  branchId : Option String := none
  transactionId : Option String := none
  transactionDate : Int
  transactionType : TransactionTypeB
  transactionAmount : ℚ
  accountBalanceAfter : Option ℚ := none
  accountOpeningDate : Option Int := none
  lastTransactionDate : Option Int := none
deriving DecidableEq, Repr

/-- Reasons of the dashboard `ValidationError`s, one constructor per
message template of `validation.ts`. -/
inductive ReasonB where
  | missingRequired
  | duplicateTransaction
  | ageOutOfRange
  | ageInconsistency (customerId : ℚ) (saw expected : Int)
  | depositNotPositive
  | balanceMismatch (expected prev amount seen : ℚ) (ty : TransactionTypeB)
deriving DecidableEq, Repr

structure ValidationErrorB where
  rowIndex : Nat
  reason : ReasonB
deriving DecidableEq, Repr

/-- The mutable state of the `validateAndClean` loop. -/
structure VCState where
  errors : List ValidationErrorB := []
  clean : List CleanedTransactionB := []
  seenTxn : List String := []
  ageByCustomer : JsMap ℚ Int := []
  lastBalanceByCustomer : JsMap ℚ ℚ := []
deriving DecidableEq, Repr

def ttbString : TransactionTypeB → String
  | TransactionTypeB.deposit => "Deposit"
  | TransactionTypeB.withdrawal => "Withdrawal"
  | TransactionTypeB.transfer => "Transfer"
  | TransactionTypeB.payment => "Payment"
  | TransactionTypeB.fee => "Fee"
  | TransactionTypeB.other => "Other"

/-- Rendering of `transactionDate.toISOString()` in the dedup key; like
the ISO string, it is injective in the timestamp. -/
def isoTimeString (t : Int) : String := "iso:" ++ toString t

/-- The dedup key of `validateAndClean`: `"id:" + transactionId` when
the id is truthy (present and nonempty), else the composite
`customerId | date | type | amount | branchId` key. -/
def stableKeyB (ct : CleanedTransactionB) : String :=
  let composite := "k:" ++ toString ct.customerId ++ "|" ++
    isoTimeString ct.transactionDate ++ "|" ++ ttbString ct.transactionType ++ "|" ++
    toString ct.transactionAmount ++ "|" ++ ct.branchId.getD ""
  match ct.transactionId with
  | some id => if id = "" then composite else "id:" ++ id
  | none => composite

/-- Model of the `close` helper (`validation.ts`): both arguments are
finite rationals here, so the `Number.isFinite` guards always pass. -/
def closeB (a b : ℚ) : Bool := |a - b| ≤ 1/100

/-- The loop body of `validateAndClean` for one admitted record, in
source order: dedup, age range, age consistency (which may blank the
age), deposit positivity, balance chain, then the push onto `clean`. -/
def vcStep (s : VCState) (idx : Nat) (ct : CleanedTransactionB) : VCState :=
  let key := stableKeyB ct
  if key ∈ s.seenTxn then
    { s with errors := s.errors ++ [⟨idx, ReasonB.duplicateTransaction⟩] }
  else
    let s1 := { s with seenTxn := key :: s.seenTxn }
    let ageBad : Bool := match ct.age with
      | some a => a < 18 ∨ 120 < a
      | none => false
    if ageBad then
      { s1 with errors := s1.errors ++ [⟨idx, ReasonB.ageOutOfRange⟩] }
    else
      let r2 : VCState × CleanedTransactionB :=
        match ct.age with
        | none => (s1, ct)
        | some a =>
          match mapGet s1.ageByCustomer ct.customerId with
          | none => ({ s1 with ageByCustomer := mapSet s1.ageByCustomer ct.customerId a }, ct)
          | some baseAge =>
            if a ≠ baseAge then
              ({ s1 with errors := s1.errors ++
                  [⟨idx, ReasonB.ageInconsistency ct.customerId a baseAge⟩] },
               { ct with age := none })
            else (s1, ct)
      let s2 := r2.1
      let ct2 := r2.2
      if ct2.transactionType = TransactionTypeB.deposit ∧ ct2.transactionAmount ≤ 0 then
        { s2 with errors := s2.errors ++ [⟨idx, ReasonB.depositNotPositive⟩] }
      else
        let s3 :=
          match ct2.accountBalanceAfter with
          | none => s2
          | some after =>
            match mapGet s2.lastBalanceByCustomer ct2.customerId with
            | none =>
              { s2 with lastBalanceByCustomer :=
                  mapSet s2.lastBalanceByCustomer ct2.customerId after }
            | some prev =>
              let expected : ℚ :=
                match ct2.transactionType with
                | TransactionTypeB.deposit => prev + ct2.transactionAmount
                | TransactionTypeB.withdrawal => prev - ct2.transactionAmount
                | TransactionTypeB.payment => prev - ct2.transactionAmount
                | TransactionTypeB.fee => prev - ct2.transactionAmount
                | TransactionTypeB.transfer => after
                | TransactionTypeB.other => prev
              if ¬ closeB after expected then
                { s2 with
                  errors := s2.errors ++
                    [ValidationErrorB.mk idx (ReasonB.balanceMismatch expected prev
                        ct2.transactionAmount after ct2.transactionType)]
                  lastBalanceByCustomer :=
                    mapSet s2.lastBalanceByCustomer ct2.customerId after }
              else
                { s2 with lastBalanceByCustomer :=
                    mapSet s2.lastBalanceByCustomer ct2.customerId after }
        { s3 with clean := s3.clean ++ [ct2] }

/-! ## Shared lemmas about the validator -/

theorem ite_singleton_eq_nil_iff {α : Type} (c : Prop) [Decidable c] (x : α) :
    (if c then [x] else []) = [] ↔ ¬ c := by
  split_ifs with h <;> simp [h]

/-- Whether `validateTransaction` reports any violation does not depend
on the record index (the index only lands in the emitted errors). -/
theorem validateTransaction_eq_nil_iff (t : CleanedTransaction) (i : Nat) :
    validateTransaction t i = [] ↔ validateTransaction t 0 = [] := by
  simp [validateTransaction, List.append_eq_nil, ite_singleton_eq_nil_iff]

/-- A record passes `validateTransaction` exactly when all eight rule
conditions are off. -/
theorem validateTransaction_eq_nil_conds (t : CleanedTransaction) (i : Nat) :
    validateTransaction t i = [] ↔
      ¬ (t.transactionType = TransactionType.Deposit ∧ t.transactionAmount ≤ 0) ∧
      ¬ (1/100 < |t.accountBalanceAfterTransaction -
          calculateExpectedBalance t.accountBalance t.transactionType t.transactionAmount|) ∧
      ¬ (t.age < 18 ∨ 120 < t.age) ∧
      ¬ (t.customerId ≤ 0) ∧
      ¬ (t.transactionId ≤ 0) ∧
      ¬ (t.transactionDate = none) ∧
      ¬ (t.transactionAmount < 0) ∧
      ¬ (t.accountBalanceAfterTransaction < 0) := by
  simp [validateTransaction, List.append_eq_nil, ite_singleton_eq_nil_iff]

/-- The `valid` component of the `validateDataset` fold: the records
whose `validateTransaction` check is empty, in original order, appended
to the accumulator. -/
theorem validateFold_valid (data : List CleanedTransaction) :
    ∀ (v : List CleanedTransaction) (inv : List ValidationError)
      (m : JsMap Reason Nat) (i : Nat),
      (data.foldl validateStep (v, inv, m, i)).1
        = v ++ data.filter (fun t => decide (validateTransaction t 0 = [])) := by
  induction data with
  | nil => intro v inv m i; simp
  | cons t ts ih =>
    intro v inv m i
    rw [List.foldl_cons]
    by_cases h : validateTransaction t i = []
    · have h0 : validateTransaction t 0 = [] := (validateTransaction_eq_nil_iff t i).mp h
      have hstep : validateStep (v, inv, m, i) t = (v ++ [t], inv, m, i + 1) := by
        simp [validateStep, h]
      rw [hstep, ih]
      simp [List.filter_cons, h0]
    · have h0 : ¬ validateTransaction t 0 = [] :=
        fun hc => h ((validateTransaction_eq_nil_iff t i).mpr hc)
      have hstep : validateStep (v, inv, m, i) t =
          (v, inv ++ validateTransaction t i,
           (validateTransaction t i).foldl
             (fun m e => mapSet m e.reason ((mapGet m e.reason).getD 0 + 1)) m,
           i + 1) := by
        simp [validateStep, h]
      rw [hstep, ih]
      simp [List.filter_cons, h0]

/-- The `valid` output of `validateDataset` is exactly the records with
an empty `validateTransaction` check, in original order. -/
theorem validateDataset_valid_eq_filter (data : List CleanedTransaction) :
    (validateDataset data).valid
      = data.filter (fun t => decide (validateTransaction t 0 = [])) := by
  have := validateFold_valid data [] [] [] 0
  simpa [validateDataset] using this

/-- A convenient template record; individual tests override the fields
they exercise. It passes every validation rule. -/
def baseRecord : CleanedTransaction where
  customerId := 1
  firstName := ""
  lastName := ""
  age := 30
  gender := Gender.Other
  address := ""
  city := ""
  contactNumber := ""
  email := ""
  accountType := AccountType.Savings
  accountBalance := 0
  accountOpeningDate := 0
  lastTransactionDate := 0
  transactionId := 1
  transactionDate := some 0
  transactionType := TransactionType.Withdrawal
  transactionAmount := 0
  accountBalanceAfterTransaction := 0
  branchId := ""

/-! ## Claim C1 -/

/-- C1 counterexample: a withdrawal that overdraws the account has the
negative-balance warning as its only violation, yet `validateDataset`
excludes it from `valid` — contradicting the claim that a record whose
violations are all warnings is retained. -/
theorem warning_only_record_excluded_from_valid :
    (validateTransaction
        { baseRecord with
          transactionType := TransactionType.Withdrawal
          accountBalance := 50
          transactionAmount := 60
          accountBalanceAfterTransaction := -10 } 0).all
      (fun e => e.severity = Severity.warning) = true ∧
    validateTransaction
        { baseRecord with
          transactionType := TransactionType.Withdrawal
          accountBalance := 50
          transactionAmount := 60
          accountBalanceAfterTransaction := -10 } 0 ≠ [] ∧
    (validateDataset
        [{ baseRecord with
           transactionType := TransactionType.Withdrawal
           accountBalance := 50
           transactionAmount := 60
           accountBalanceAfterTransaction := -10 }]).valid = [] := by
  have hval : validateTransaction
      { baseRecord with
        transactionType := TransactionType.Withdrawal
        accountBalance := 50
        transactionAmount := 60
        accountBalanceAfterTransaction := -10 } 0
      = [⟨0, "accountBalanceAfterTransaction", Reason.negativeBalanceAfter,
          Severity.warning⟩] := by
    norm_num [validateTransaction, calculateExpectedBalance, baseRecord,
      Option.some_ne_none]
  refine ⟨by rw [hval]; decide, by rw [hval]; simp, ?_⟩
  simp [validateDataset, validateStep, hval]

/-- C1 amended: `validateDataset` keeps exactly the records with zero
violations of either severity, so a violation of severity `warning`
excludes a record from `valid` just like an `error` does; in particular
every record in `valid` has a nonnegative post-transaction balance. -/
theorem valid_eq_filter_no_violations (data : List CleanedTransaction) :
    (validateDataset data).valid
      = data.filter (fun t => decide (validateTransaction t 0 = [])) ∧
    ∀ t ∈ (validateDataset data).valid, 0 ≤ t.accountBalanceAfterTransaction := by
  have hv := validateDataset_valid_eq_filter data
  refine ⟨hv, ?_⟩
  intro t ht
  rw [hv, List.mem_filter] at ht
  have hnil : validateTransaction t 0 = [] := by
    have := ht.2
    simpa using this
  have hc := (validateTransaction_eq_nil_conds t 0).mp hnil
  have := hc.2.2.2.2.2.2.2
  linarith [lt_or_ge t.accountBalanceAfterTransaction 0]

/-- C1 witness: the template record has no violations, so the filter
characterization keeps it in `valid` and gives its nonnegative
post-balance. -/
theorem valid_eq_filter_no_violations_witness :
    (validateDataset [baseRecord]).valid = [baseRecord] ∧
    0 ≤ baseRecord.accountBalanceAfterTransaction := by
  have hval : validateTransaction baseRecord 0 = [] := by
    norm_num [validateTransaction, calculateExpectedBalance, baseRecord,
      Option.some_ne_none]
    decide
  have h1 := (valid_eq_filter_no_violations [baseRecord]).1
  have hfilter : [baseRecord].filter (fun t => decide (validateTransaction t 0 = []))
      = [baseRecord] := by
    simp [List.filter_cons, hval]
  refine ⟨by rw [h1, hfilter], ?_⟩
  exact (valid_eq_filter_no_violations [baseRecord]).2 baseRecord
    (by rw [h1, hfilter]; exact List.mem_singleton_self _)

/-! ## Claim C7 -/

/-- C7: a deposit with nonpositive amount always gets the
deposit-positivity error, such a record never reaches `valid`, and the
dashboard loop drops it with the same reason. -/
theorem deposit_nonpositive_always_rejected :
    (∀ (t : CleanedTransaction) (i : Nat),
      t.transactionType = TransactionType.Deposit → t.transactionAmount ≤ 0 →
      ValidationError.mk i "transactionAmount" Reason.depositNotPositive Severity.error
        ∈ validateTransaction t i) ∧
    (∀ (data : List CleanedTransaction) (t : CleanedTransaction),
      t ∈ (validateDataset data).valid →
      t.transactionType = TransactionType.Deposit → 0 < t.transactionAmount) ∧
    (∀ (s : VCState) (idx : Nat) (ct : CleanedTransactionB),
      stableKeyB ct ∉ s.seenTxn → ct.age = none →
      ct.transactionType = TransactionTypeB.deposit → ct.transactionAmount ≤ 0 →
      (vcStep s idx ct).errors = s.errors ++ [⟨idx, ReasonB.depositNotPositive⟩] ∧
      (vcStep s idx ct).clean = s.clean) := by
  refine ⟨?_, ?_, ?_⟩
  · intro t i hty hle
    simp only [validateTransaction, if_pos (And.intro hty hle)]
    apply List.mem_append_left
    apply List.mem_append_left
    apply List.mem_append_left
    apply List.mem_append_left
    apply List.mem_append_left
    apply List.mem_append_left
    apply List.mem_append_left
    exact List.mem_singleton_self _
  · intro data t ht hty
    have hv := validateDataset_valid_eq_filter data
    rw [hv, List.mem_filter] at ht
    have hnil : validateTransaction t 0 = [] := by
      have := ht.2
      simpa using this
    have hc := (validateTransaction_eq_nil_conds t 0).mp hnil
    have h1 := hc.1
    by_contra hle
    exact h1 ⟨hty, le_of_not_lt hle⟩
  · intro s idx ct hseen hage hty hle
    constructor <;> simp [vcStep, hseen, hage, hty, hle]

/-- C7 witness: the `(Deposit, -5)` record of the spec example gets the
deposit-positivity error, and the dashboard loop drops it from a fresh
state. -/
theorem deposit_nonpositive_always_rejected_witness :
    ValidationError.mk 0 "transactionAmount" Reason.depositNotPositive Severity.error
      ∈ validateTransaction
        { baseRecord with
          transactionType := TransactionType.Deposit
          transactionAmount := -5
          accountBalance := 5
          accountBalanceAfterTransaction := 0 } 0 ∧
    (vcStep {} 0
        { customerId := 1
          transactionDate := 0
          transactionType := TransactionTypeB.deposit
          transactionAmount := -5 }).clean = [] := by
  constructor
  · exact deposit_nonpositive_always_rejected.1 _ 0 rfl (by norm_num)
  · have := (deposit_nonpositive_always_rejected.2.2 {} 0
      { customerId := 1
        transactionDate := 0
        transactionType := TransactionTypeB.deposit
        transactionAmount := -5 } (by decide) rfl rfl (by norm_num)).2
    simpa using this

/-! ## Claim C3 -/

/-- C3 counterexample: in the validator variant a `Transfer` is treated
as a withdrawal (`calculateExpectedBalance 100 Transfer 30 = 70`), and a
transfer whose reported post-balance equals its prior balance gets a
balance-mismatch error — a discrepancy IS checked and reported for
transfer records, contradicting the claim. -/
theorem transfer_discrepancy_reported :
    calculateExpectedBalance 100 TransactionType.Transfer 30 = 70 ∧
    ValidationError.mk 0 "accountBalanceAfterTransaction"
        (Reason.balanceMismatch 70 100) Severity.error
      ∈ validateTransaction
        { baseRecord with
          transactionType := TransactionType.Transfer
          accountBalance := 100
          transactionAmount := 30
          accountBalanceAfterTransaction := 100 } 0 := by
  have hval : validateTransaction
      { baseRecord with
        transactionType := TransactionType.Transfer
        accountBalance := 100
        transactionAmount := 30
        accountBalanceAfterTransaction := 100 } 0
      = [⟨0, "accountBalanceAfterTransaction", Reason.balanceMismatch 70 100,
          Severity.error⟩] := by
    norm_num [validateTransaction, calculateExpectedBalance, baseRecord,
      Option.some_ne_none]
  refine ⟨by norm_num [calculateExpectedBalance], ?_⟩
  rw [hval]
  exact List.mem_singleton_self _

/-- C3 amended: only the dashboard chain (`validateAndClean`) trusts a
transfer as-is — no mismatch error, reported balance becomes the running
value; the validator variant instead computes the expected balance of a
transfer as `running - amount` (a withdrawal) and checks/reports
discrepancies against that. -/
theorem transfer_balance_two_variants :
    (∀ (b a : ℚ), calculateExpectedBalance b TransactionType.Transfer a = b - a) ∧
    (∀ (s : VCState) (idx : Nat) (ct : CleanedTransactionB) (b prev : ℚ),
      stableKeyB ct ∉ s.seenTxn → ct.age = none →
      ct.transactionType = TransactionTypeB.transfer →
      ct.accountBalanceAfter = some b →
      mapGet s.lastBalanceByCustomer ct.customerId = some prev →
      (vcStep s idx ct).errors = s.errors ∧
      mapGet (vcStep s idx ct).lastBalanceByCustomer ct.customerId = some b ∧
      (vcStep s idx ct).clean = s.clean ++ [ct]) := by
  refine ⟨fun b a => rfl, ?_⟩
  intro s idx ct b prev hseen hage hty hbal hprev
  have hclose : closeB b b = true := by simp [closeB]
  refine ⟨?_, ?_, ?_⟩ <;>
    simp [vcStep, hseen, hage, hty, hbal, hprev, hclose, mapGet_set_self]

/-- C3 witness: a concrete transfer (prior running balance 100, reported
balance 55) passes the dashboard chain with no error and running value
55. -/
theorem transfer_balance_two_variants_witness :
    (vcStep { lastBalanceByCustomer := [(1, 100)] } 0
        { customerId := 1
          transactionDate := 0
          transactionType := TransactionTypeB.transfer
          transactionAmount := 30
          accountBalanceAfter := some 55 }).errors = [] ∧
    mapGet (vcStep { lastBalanceByCustomer := [(1, 100)] } 0
        { customerId := 1
          transactionDate := 0
          transactionType := TransactionTypeB.transfer
          transactionAmount := 30
          accountBalanceAfter := some 55 }).lastBalanceByCustomer 1 = some 55 := by
  have h := transfer_balance_two_variants.2
    { lastBalanceByCustomer := [(1, 100)] } 0
    { customerId := 1
      transactionDate := 0
      transactionType := TransactionTypeB.transfer
      transactionAmount := 30
      accountBalanceAfter := some 55 } 55 100
    (by simp) rfl rfl rfl (by rfl)
  exact ⟨h.1, h.2.1⟩

/-! ## Claim C4 -/

/-- C4 counterexample: after stripping, the remainder `12.34abc` is
malformed (stray non-numeric characters), yet `parseAmount` resolves it
to the partially-parsed number `12.34`, not to the no-value fallback
`0`. -/
theorem parseAmount_partially_parses :
    parseAmount "$12.34abc" = 617/50 ∧ (617/50 : ℚ) ≠ 0 := by
  have h : parseAmount "$12.34abc"
      = (1 : ℚ) * (((12 : ℕ) : ℚ) + ((34 : ℕ) : ℚ) / 10 ^ (2 : ℕ)) * 10 ^ (0 : ℤ) := rfl
  rw [h]
  norm_num

/-- C4 amended: `parseAmount` maps `$1,234.56` to `1234.56` and empty
and `N/A` inputs to the fallback `0`; but a malformed remainder is fed
to `parseFloat`, so a remainder with a numeric prefix yields that
partially-parsed prefix (`$12.34abc` gives `12.34`), and only a
remainder with no numeric prefix yields `0` (`abc`). -/
theorem parseAmount_values :
    parseAmount "$1,234.56" = 123456/100 ∧
    parseAmount "" = 0 ∧
    parseAmount "N/A" = 0 ∧
    parseAmount "$12.34abc" = 1234/100 ∧
    parseAmount "abc" = 0 := by
  refine ⟨?_, rfl, rfl, ?_, rfl⟩
  · have h : parseAmount "$1,234.56"
        = (1 : ℚ) * (((1234 : ℕ) : ℚ) + ((56 : ℕ) : ℚ) / 10 ^ (2 : ℕ)) * 10 ^ (0 : ℤ) := rfl
    rw [h]; norm_num
  · have h : parseAmount "$12.34abc"
        = (1 : ℚ) * (((12 : ℕ) : ℚ) + ((34 : ℕ) : ℚ) / 10 ^ (2 : ℕ)) * 10 ^ (0 : ℤ) := rfl
    rw [h]; norm_num

/-! ## Claim C2 -/

/-- A raw row with every column empty; tests override the columns they
exercise. -/
def emptyRaw : RawBankingRecord where
  customerId := ""
  firstName := ""
  lastName := ""
  age := ""
  gender := ""
  address := ""
  city := ""
  contactNumber := ""
  email := ""
  accountType := ""
  accountBalance := ""
  dateOfAccountOpening := ""
  lastTransactionDate := ""
  transactionID := ""
  transactionDate := ""
  transactionType := ""
  transactionAmount := ""
  accountBalanceAfterTransaction := ""
  branchId := ""
  loanId := ""
  loanAmount := ""
  loanType := ""
  interestRate := ""
  loanTerm := ""
  approvalRejectionDate := ""
  loanStatus := ""
  cardID := ""
  cardType := ""
  creditLimit := ""
  creditCardBalance := ""
  minimumPaymentDue := ""
  paymentDueDate := ""
  lastCreditCardPaymentDate := ""
  rewardsPoints := ""
  feedbackID := ""
  feedbackDate := ""
  feedbackType := ""
  resolutionStatus := ""
  anomaly := ""
  resolutionDate := ""

/-- C2 counterexample: a row whose `customerId`, `transactionDate` and
`transactionAmount` all parse is still rejected by `cleanRecord`
(here because `Age` is empty) — rejection is not restricted to parse
failures of those three fields. -/
theorem cleanRecord_rejects_beyond_required_fields :
    cleanRecord 0
      { emptyRaw with
        customerId := "5"
        transactionID := "7"
        transactionDate := "2023-01-15"
        transactionType := "Deposit"
        accountType := "Savings"
        transactionAmount := "100"
        accountBalanceAfterTransaction := "50" } = none ∧
    parseInteger "5" = 5 ∧
    parseDate "2023-01-15" = some 1673740800000 ∧
    parseAmount "100" = 100 := by
  refine ⟨rfl, rfl, rfl, ?_⟩
  have h : parseAmount "100"
      = (1 : ℚ) * (((100 : ℕ) : ℚ) + ((0 : ℕ) : ℚ) / 10 ^ (0 : ℕ)) * 10 ^ (0 : ℤ) := rfl
  rw [h]; norm_num

/-- C2 amended: `cleanRecord` rejects a row exactly when `customerId`,
`transactionId`, or `age` parse to the falsy `0`, the transaction date
fails to parse, or the transaction/account type is unrecognized; a
failed `transactionAmount` parse yields `0` and does NOT reject. Truly
optional fields stay absent on a failed parse instead of rejecting
(shown for the loan amount and the anomaly flag). -/
theorem cleanRecord_rejection_conditions (now : Int) (raw : RawBankingRecord) :
    (cleanRecord now raw = none ↔
      parseInteger raw.customerId = 0 ∨ parseInteger raw.transactionID = 0 ∨
      parseDate raw.transactionDate = none ∨ parseInteger raw.age = 0 ∨
      parseTransactionType raw.transactionType = none ∨
      parseAccountType raw.accountType = none) ∧
    (∀ c, cleanRecord now raw = some c →
      (c.loanAmount = none ↔ parseAmount raw.loanAmount = 0) ∧
      (c.anomaly = none ↔ parseInteger raw.anomaly = 0)) := by
  constructor
  · by_cases h : parseInteger raw.customerId = 0 ∨ parseInteger raw.transactionID = 0 ∨
        parseDate raw.transactionDate = none ∨ parseInteger raw.age = 0
    · simp only [cleanRecord, if_pos h]
      exact ⟨fun _ => by tauto, fun _ => trivial⟩
    · push_neg at h
      obtain ⟨h1, h2, h3, h4⟩ := h
      rcases htt : parseTransactionType raw.transactionType with _ | tt
      · simp [cleanRecord, h1, h2, h3, h4, htt]
      · rcases hat : parseAccountType raw.accountType with _ | ta
        · simp [cleanRecord, h1, h2, h3, h4, htt, hat]
        · simp [cleanRecord, h1, h2, h3, h4, htt, hat]
  · intro c hc
    simp only [cleanRecord] at hc
    split_ifs at hc with h
    rcases htt : parseTransactionType raw.transactionType with _ | tt <;> rw [htt] at hc
    · cases hc
    · rcases hat : parseAccountType raw.accountType with _ | ta <;> rw [hat] at hc
      · cases hc
      · cases Option.some.inj hc
        constructor
        · by_cases hv : parseAmount raw.loanAmount = 0 <;>
            simp [cleanRecord.mkAmt, hv]
        · by_cases hv : parseInteger raw.anomaly = 0 <;>
            simp [cleanRecord.mkNum, hv]

/-- C2 witness: on the counterexample row, the rejection-condition
equivalence confirms the rejection (the empty `Age` parses to the falsy
`0`). -/
theorem cleanRecord_rejection_conditions_witness :
    cleanRecord 0
      { emptyRaw with
        customerId := "5"
        transactionID := "7"
        transactionDate := "2023-01-15"
        transactionType := "Deposit"
        accountType := "Savings"
        transactionAmount := "100"
        accountBalanceAfterTransaction := "50" } = none := by
  exact (cleanRecord_rejection_conditions 0 _).1.mpr (by
    right; right; right; left
    rfl)

/-! ## Claims C6 and C8: duplicate removal -/

/-- First-occurrence scan, stated the way the claim describes it: a
record is kept when no record in the full preceding prefix (`pre`)
carries the same key, and is a duplicate otherwise. -/
def firstScanKept (pre : List CleanedTransaction) :
    List CleanedTransaction → List CleanedTransaction
  | [] => []
  | t :: ts =>
    if pre.all (fun u => transKey u != transKey t) then
      t :: firstScanKept (pre ++ [t]) ts
    else firstScanKept (pre ++ [t]) ts

/-- The duplicates of the first-occurrence scan (records with an
earlier same-key record). -/
def firstScanDups (pre : List CleanedTransaction) :
    List CleanedTransaction → List CleanedTransaction
  | [] => []
  | t :: ts =>
    if pre.all (fun u => transKey u != transKey t) then
      firstScanDups (pre ++ [t]) ts
    else t :: firstScanDups (pre ++ [t]) ts

theorem dedupGo_eq_firstScan (l : List CleanedTransaction) :
    ∀ (pre : List CleanedTransaction) (seen : List String),
      (∀ k, k ∈ seen ↔ ∃ u ∈ pre, transKey u = k) →
      dedupGo seen l = ⟨firstScanKept pre l, firstScanDups pre l⟩ := by
  induction l with
  | nil => intro pre seen hinv; simp [dedupGo, firstScanKept, firstScanDups]
  | cons t ts ih =>
    intro pre seen hinv
    by_cases hk : transKey t ∈ seen
    · obtain ⟨u, hu, hku⟩ := (hinv (transKey t)).mp hk
      have hall : ¬ (pre.all (fun v => transKey v != transKey t) = true) := by
        simp only [List.all_eq_true, bne_iff_ne, ne_eq]
        push_neg
        exact ⟨u, hu, hku⟩
      have hinv2 : ∀ k, k ∈ seen ↔ ∃ v ∈ pre ++ [t], transKey v = k := by
        intro k
        rw [hinv k]
        constructor
        · rintro ⟨v, hv, hkv⟩; exact ⟨v, by simp [hv], hkv⟩
        · rintro ⟨v, hv, hkv⟩
          rcases List.mem_append.mp hv with hv | hv
          · exact ⟨v, hv, hkv⟩
          · obtain rfl : v = t := by simpa using hv
            exact ⟨u, hu, hku.trans hkv⟩
      rw [show dedupGo seen (t :: ts)
          = ⟨(dedupGo seen ts).unique, t :: (dedupGo seen ts).duplicates⟩ from by
        simp [dedupGo, hk]]
      rw [ih (pre ++ [t]) seen hinv2]
      simp [firstScanKept, firstScanDups, hall]
    · have hall : pre.all (fun v => transKey v != transKey t) = true := by
        simp only [List.all_eq_true, bne_iff_ne, ne_eq]
        intro v hv hkv
        exact hk ((hinv (transKey t)).mpr ⟨v, hv, hkv⟩)
      have hinv2 : ∀ k, k ∈ transKey t :: seen ↔ ∃ v ∈ pre ++ [t], transKey v = k := by
        intro k
        simp only [List.mem_cons, hinv k]
        constructor
        · rintro (rfl | ⟨v, hv, hkv⟩)
          · exact ⟨t, by simp, rfl⟩
          · exact ⟨v, by simp [hv], hkv⟩
        · rintro ⟨v, hv, hkv⟩
          rcases List.mem_append.mp hv with hv | hv
          · exact Or.inr ⟨v, hv, hkv⟩
          · obtain rfl : v = t := by simpa using hv
            exact Or.inl hkv.symm
      rw [show dedupGo seen (t :: ts)
          = ⟨t :: (dedupGo (transKey t :: seen) ts).unique,
             (dedupGo (transKey t :: seen) ts).duplicates⟩ from by
        simp [dedupGo, hk]]
      rw [ih (pre ++ [t]) (transKey t :: seen) hinv2]
      simp [firstScanKept, firstScanDups, hall]

/-- The identity key as the claim describes it: the source transaction
identifier is preferred when present, and in the validator record type
it always is. -/
def claimedKey (t : CleanedTransaction) : String :=
  "id:" ++ toString t.transactionId

/-- C6 counterexample: two records with the same
customer/date/amount/type but different transaction ids have distinct
claim-described keys, yet `removeDuplicateTransactions` classifies the
second one as a duplicate — its key uses neither `transactionId` nor
`branchId`. -/
theorem dedup_key_ignores_transaction_id :
    claimedKey { baseRecord with transactionId := 1 }
      ≠ claimedKey { baseRecord with transactionId := 2 } ∧
    (removeDuplicateTransactions
        [{ baseRecord with transactionId := 1 },
         { baseRecord with transactionId := 2 }]).duplicates
      = [{ baseRecord with transactionId := 2 }] := by
  constructor
  · decide
  · simp [removeDuplicateTransactions, dedupGo, transKey]

/-- C6 amended: `removeDuplicateTransactions` keys a record by
`customerId | transactionDate (ms) | transactionAmount | transactionType`
only (the dashboard loop, not this pass, is the one that prefers
`"id:" + transactionId` and includes `branchId`); scanning in original
order, a record is kept iff no earlier record has the same key, and is
reported as a duplicate otherwise. The key does not depend on
`transactionId` or `branchId`. -/
theorem removeDuplicates_first_kept (data : List CleanedTransaction) :
    removeDuplicateTransactions data
      = ⟨firstScanKept [] data, firstScanDups [] data⟩ ∧
    (∀ t u : CleanedTransaction,
      t.customerId = u.customerId → t.transactionDate = u.transactionDate →
      t.transactionAmount = u.transactionAmount →
      t.transactionType = u.transactionType → transKey t = transKey u) := by
  constructor
  · exact dedupGo_eq_firstScan data [] [] (by simp)
  · intro t u h1 h2 h3 h4
    simp [transKey, h1, h2, h3, h4]

/-- C6 witness: the key equality applied at two concrete records that
differ in `transactionId` and `branchId` only. -/
theorem removeDuplicates_first_kept_witness :
    transKey { baseRecord with transactionId := 1, branchId := "B1" }
      = transKey { baseRecord with transactionId := 2, branchId := "B2" } :=
  (removeDuplicates_first_kept []).2
    { baseRecord with transactionId := 1, branchId := "B1" }
    { baseRecord with transactionId := 2, branchId := "B2" } rfl rfl rfl rfl

/-- Keys of the kept records are pairwise distinct and avoid the ambient
seen set. -/
theorem dedupGo_unique_keys (l : List CleanedTransaction) :
    ∀ seen : List String,
      (∀ t ∈ (dedupGo seen l).unique, transKey t ∉ seen) ∧
      ((dedupGo seen l).unique.map transKey).Nodup := by
  induction l with
  | nil => intro seen; simp [dedupGo]
  | cons t ts ih =>
    intro seen
    by_cases hk : transKey t ∈ seen
    · have h := ih seen
      refine ⟨?_, ?_⟩ <;> simp only [dedupGo, hk, if_true]
      · exact h.1
      · exact h.2
    · have h := ih (transKey t :: seen)
      refine ⟨?_, ?_⟩ <;> simp only [dedupGo, hk, if_false]
      · intro u hu
        rcases List.mem_cons.mp hu with rfl | hu
        · exact hk
        · exact fun hs => h.1 u hu (List.mem_cons_of_mem _ hs)
      · refine List.Pairwise.cons ?_ h.2
        intro k hkmem
        obtain ⟨u, hu, rfl⟩ := List.mem_map.mp hkmem
        exact fun he => h.1 u hu (he ▸ List.mem_cons_self _ _)

/-- Running the dedup scan over records whose keys are fresh and
pairwise distinct keeps everything and reports nothing. -/
theorem dedupGo_of_nodup (l : List CleanedTransaction) :
    ∀ seen : List String,
      (∀ t ∈ l, transKey t ∉ seen) → (l.map transKey).Nodup →
      dedupGo seen l = ⟨l, []⟩ := by
  induction l with
  | nil => intro seen _ _; simp [dedupGo]
  | cons t ts ih =>
    intro seen hfresh hnodup
    have hk : transKey t ∉ seen := hfresh t (List.mem_cons_self _ _)
    have hnodup' := (List.pairwise_cons.mp hnodup).2
    have hhead := (List.pairwise_cons.mp hnodup).1
    have hfresh' : ∀ u ∈ ts, transKey u ∉ transKey t :: seen := by
      intro u hu
      simp only [List.mem_cons]
      rintro (he | hs)
      · exact hhead (transKey u) (List.mem_map_of_mem _ hu) he.symm
      · exact hfresh u (List.mem_cons_of_mem _ hu) hs
    simp [dedupGo, hk, ih (transKey t :: seen) hfresh' hnodup']

/-- C8: deduplication is idempotent — on its own `unique` output the
pass keeps everything and removes zero further duplicates. -/
theorem removeDuplicates_idempotent (data : List CleanedTransaction) :
    removeDuplicateTransactions (removeDuplicateTransactions data).unique
      = ⟨(removeDuplicateTransactions data).unique, []⟩ := by
  have h := dedupGo_unique_keys data []
  exact dedupGo_of_nodup _ [] (fun t ht => by simp) (h.2)

/-! ## Claim C10: the age pass is a frame for everything but `age` -/

/-- C10: `handleInconsistentAges` preserves length and order, and each
output record agrees with the input record at the same position on
every field except possibly `age`. -/
theorem handleInconsistentAges_frame (data : List CleanedTransaction) :
    (handleInconsistentAges data).corrected.length = data.length ∧
    List.Forall₂ (fun t u => u = { t with age := u.age }) data
      (handleInconsistentAges data).corrected := by
  have hmap : (handleInconsistentAges data).corrected
      = data.map (fun transaction =>
          match mapGet (collectCorrections (groupAges data)).1 transaction.customerId with
          | some correctedAge => { transaction with age := correctedAge }
          | none => transaction) := rfl
  constructor
  · rw [hmap, List.length_map]
  · rw [hmap, List.forall₂_map_right_iff]
    rw [List.forall₂_same]
    intro t _
    cases mapGet (collectCorrections (groupAges data)).1 t.customerId <;> rfl

/-! ## Claim C5: age correction uses the first-seen mode

Infrastructure: characterizations of the grouping map, the frequency
map inside `calculateMode`, and the max-scan over it. -/

/-- The ages of one customer, in record order. -/
def agesOf (data : List CleanedTransaction) (cid : Int) : List Int :=
  (data.filter (fun t => t.customerId = cid)).map (·.age)

theorem groupAges_aux (data : List CleanedTransaction) :
    ∀ (m : JsMap Int (List Int)) (cid : Int),
      mapGet (data.foldl
        (fun m transaction =>
          mapSet m transaction.customerId
            ((mapGet m transaction.customerId).getD [] ++ [transaction.age])) m) cid
        = match mapGet m cid with
          | some vs => some (vs ++ agesOf data cid)
          | none =>
            if data.any (fun t => t.customerId = cid) then some (agesOf data cid) else none := by
  induction data with
  | nil =>
    intro m cid
    cases h : mapGet m cid <;> simp [agesOf, h]
  | cons t ts ih =>
    intro m cid
    rw [List.foldl_cons]
    by_cases hc : t.customerId = cid
    · rw [ih]
      have hset : mapGet (mapSet m t.customerId
          ((mapGet m t.customerId).getD [] ++ [t.age])) cid
          = some ((mapGet m cid).getD [] ++ [t.age]) := by
        rw [← hc]
        exact mapGet_set_self m t.customerId _
      rw [hset]
      have hages : agesOf (t :: ts) cid = t.age :: agesOf ts cid := by
        simp [agesOf, List.filter_cons, hc]
      cases h : mapGet m cid with
      | some vs => simp [h, hages, hc]
      | none => simp [h, hages, hc]
    · rw [ih]
      have hset : mapGet (mapSet m t.customerId
          ((mapGet m t.customerId).getD [] ++ [t.age])) cid = mapGet m cid :=
        mapGet_set_ne m t.customerId cid _ (fun e => hc e.symm)
      rw [hset]
      have hages : agesOf (t :: ts) cid = agesOf ts cid := by
        simp [agesOf, List.filter_cons, hc]
      cases h : mapGet m cid with
      | some vs => simp [h, hages]
      | none => simp [h, hages, hc]

/-- Lookup in the grouping map: the ages of the customer, in order, or
`none` for a customer with no record. -/
theorem groupAges_get (data : List CleanedTransaction) (cid : Int) :
    mapGet (groupAges data) cid
      = if data.any (fun t => t.customerId = cid) then some (agesOf data cid) else none := by
  have h := groupAges_aux data [] cid
  simpa [groupAges, mapGet_nil] using h

/-- Any fold that only updates through `mapSet` keeps the key list
duplicate-free. -/
theorem foldl_mapSet_keys_nodup {α K V : Type} [DecidableEq K]
    (key : α → K) (upd : JsMap K V → α → V) (l : List α) :
    ∀ m : JsMap K V, (mapKeys m).Nodup →
      (mapKeys (l.foldl (fun m a => mapSet m (key a) (upd m a)) m)).Nodup := by
  induction l with
  | nil => intro m hm; simpa using hm
  | cons a l ih =>
    intro m hm
    rw [List.foldl_cons]
    apply ih
    rw [mapKeys_set]
    split_ifs with h
    · exact hm
    · exact hm.append (List.nodup_singleton _) (by simpa using h)

theorem groupAges_keys_nodup (data : List CleanedTransaction) :
    (mapKeys (groupAges data)).Nodup :=
  foldl_mapSet_keys_nodup (α := CleanedTransaction) (K := Int) (V := List Int)
    (fun t => t.customerId)
    (fun m t => (mapGet m t.customerId).getD [] ++ [t.age]) data [] (by simp [mapKeys])

theorem distinctVals_cons (x : Int) (xs : List Int) :
    distinctVals (x :: xs) = x :: distinctVals (xs.filter (fun y => y ≠ x)) := by
  simp [distinctVals]

theorem distinctVals_mem (l : List Int) (a : Int) : a ∈ distinctVals l ↔ a ∈ l := by
  induction l using distinctVals.induct with
  | case1 => simp [distinctVals]
  | case2 x xs ih =>
    rw [distinctVals_cons]
    by_cases hax : a = x
    · simp [hax]
    · simp only [List.mem_cons, ih, List.mem_filter]
      constructor
      · rintro (rfl | ⟨hm, _⟩)
        · exact Or.inl rfl
        · exact Or.inr hm
      · rintro (rfl | hm)
        · exact Or.inl rfl
        · exact Or.inr ⟨hm, by simpa using hax⟩

theorem distinctVals_nodup (l : List Int) : (distinctVals l).Nodup := by
  induction l using distinctVals.induct with
  | case1 => simp [distinctVals]
  | case2 x xs ih =>
    rw [distinctVals_cons]
    refine List.Pairwise.cons ?_ ih
    intro a ha
    have := (distinctVals_mem _ a).mp ha
    have hne := (List.mem_filter.mp this).2
    intro he
    rw [he] at hne
    simp at hne

theorem distinctVals_ne_nil (l : List Int) (h : l ≠ []) : distinctVals l ≠ [] := by
  cases l with
  | nil => exact absurd rfl h
  | cons x xs => rw [distinctVals_cons]; simp

/-- Lookup in the frequency map built by `calculateMode`: the number of
occurrences consumed so far, on top of whatever the accumulator held. -/
theorem freq_get_aux (l : List Int) :
    ∀ (m : JsMap Int Nat) (v : Int),
      mapGet (l.foldl (fun m num => mapSet m num ((mapGet m num).getD 0 + 1)) m) v
        = match mapGet m v with
          | some c => some (c + l.count v)
          | none => if v ∈ l then some (l.count v) else none := by
  induction l with
  | nil => intro m v; cases h : mapGet m v <;> simp [h]
  | cons n l ih =>
    intro m v
    rw [List.foldl_cons, ih]
    by_cases hv : n = v
    · subst hv
      rw [mapGet_set_self]
      cases h : mapGet m n with
      | some c => simp [h, List.count_cons]; omega
      | none => simp [h, List.count_cons]; omega
    · have hv' : v ≠ n := fun e => hv e.symm
      rw [mapGet_set_ne _ _ _ _ hv']
      cases h : mapGet m v with
      | some c => simp [h, List.count_cons, hv']
      | none => simp [h, List.count_cons, hv']

/-- The keys of the frequency map accumulate in first-occurrence
order. -/
theorem freq_keys_aux (l : List Int) :
    ∀ m : JsMap Int Nat,
      mapKeys (l.foldl (fun m num => mapSet m num ((mapGet m num).getD 0 + 1)) m)
        = mapKeys m ++ distinctVals (l.filter (fun x => x ∉ mapKeys m)) := by
  induction l with
  | nil => intro m; simp [distinctVals]
  | cons n l ih =>
    intro m
    rw [List.foldl_cons, ih, mapKeys_set]
    by_cases h : n ∈ mapKeys m
    · rw [if_pos h]
      have hf : (n :: l).filter (fun x => decide (x ∉ mapKeys m))
          = l.filter (fun x => decide (x ∉ mapKeys m)) := by
        simp [List.filter_cons, h]
      rw [← hf]
    · rw [if_neg h]
      have hf1 : (n :: l).filter (fun x => decide (x ∉ mapKeys m))
          = n :: l.filter (fun x => decide (x ∉ mapKeys m)) := by
        simp [List.filter_cons, h]
      have hf2 : l.filter (fun x => decide (x ∉ mapKeys m ++ [n]))
          = (l.filter (fun x => decide (x ∉ mapKeys m))).filter (fun y => decide (y ≠ n)) := by
        rw [List.filter_filter]
        apply List.filter_congr
        intro a _
        by_cases h1 : a ∈ mapKeys m <;> by_cases h2 : a = n <;>
          simp [h1, h2, List.mem_append]
      rw [hf1, distinctVals_cons, ← hf2, List.append_assoc, List.singleton_append]

/-- An entry of a map with duplicate-free keys is what `get` returns. -/
theorem mapGet_of_mem {K V : Type} [DecidableEq K] (m : JsMap K V)
    (hnd : (mapKeys m).Nodup) (p : K × V) (hp : p ∈ m) : mapGet m p.1 = some p.2 := by
  induction m with
  | nil => cases hp
  | cons q m ih =>
    rcases List.mem_cons.mp hp with rfl | hp
    · simp [mapGet_cons]
    · have hnd' : (q.1 :: mapKeys m).Nodup := by rwa [mapKeys_cons] at hnd
      have hq : ¬ q.1 = p.1 := by
        intro e
        exact (List.pairwise_cons.mp hnd').1 p.1 (List.mem_map_of_mem (·.1) hp) e
      rw [mapGet_cons, if_neg hq]
      exact ih (List.pairwise_cons.mp hnd').2 hp

theorem mem_of_mapGet {K V : Type} [DecidableEq K] (m : JsMap K V) (k : K) (v : V)
    (h : mapGet m k = some v) : (k, v) ∈ m := by
  unfold mapGet at h
  cases hf : m.find? (fun p => p.1 = k) with
  | none => rw [hf] at h; cases h
  | some q =>
    rw [hf] at h
    have hq : q ∈ m := List.mem_of_find?_eq_some hf
    have hpred := List.find?_some hf
    have hk : q.1 = k := by simpa using hpred
    have hv : q.2 = v := by simpa using h
    have : q = (k, v) := by
      cases q; simp at hk hv; simp [hk, hv]
    exact this ▸ hq

/-- The running max-scan of `calculateMode`: either nothing beat the
initial accumulator, or the result is the first entry achieving the
maximal frequency. -/
theorem pick_fold_first_max (es : List (Int × Nat)) :
    ∀ acc : Nat × Int,
      (es.foldl (fun acc e => if acc.1 < e.2 then (e.2, e.1) else acc) acc = acc ∧
        ∀ e ∈ es, e.2 ≤ acc.1) ∨
      (∃ (i : Nat) (h : i < es.length),
        es.foldl (fun acc e => if acc.1 < e.2 then (e.2, e.1) else acc) acc
          = ((es.get ⟨i, h⟩).2, (es.get ⟨i, h⟩).1) ∧
        acc.1 < (es.get ⟨i, h⟩).2 ∧
        (∀ e ∈ es, e.2 ≤ (es.get ⟨i, h⟩).2) ∧
        (∀ j (hj : j < i), (es.get ⟨j, Nat.lt_trans hj h⟩).2 < (es.get ⟨i, h⟩).2)) := by
  induction es with
  | nil => intro acc; left; simp
  | cons e es ih =>
    intro acc
    rw [List.foldl_cons]
    by_cases hlt : acc.1 < e.2
    · rw [if_pos hlt]
      rcases ih (e.2, e.1) with ⟨heq, hall⟩ | ⟨i, hi, heq, hacc, hall, hprev⟩
      · right
        refine ⟨0, by simp, by simpa using heq, hlt, ?_, ?_⟩
        · intro x hx
          rcases List.mem_cons.mp hx with rfl | hx
          · simp
          · simpa using hall x hx
        · intro j hj; omega
      · right
        refine ⟨i + 1, by simpa using Nat.succ_lt_succ hi, ?_, ?_, ?_, ?_⟩
        · simpa using heq
        · have : e.2 ≤ (es.get ⟨i, hi⟩).2 := le_of_lt hacc
          calc acc.1 < e.2 := hlt
            _ ≤ _ := this
        · intro x hx
          rcases List.mem_cons.mp hx with rfl | hx
          · simpa using le_of_lt hacc
          · simpa using hall x hx
        · intro j hj
          cases j with
          | zero => simpa using hacc
          | succ j => exact hprev j (by omega)
    · rw [if_neg hlt]
      rcases ih acc with ⟨heq, hall⟩ | ⟨i, hi, heq, hacc, hall, hprev⟩
      · left
        refine ⟨heq, ?_⟩
        intro x hx
        rcases List.mem_cons.mp hx with rfl | hx
        · omega
        · exact hall x hx
      · right
        refine ⟨i + 1, by simpa using Nat.succ_lt_succ hi, ?_, ?_, ?_, ?_⟩
        · simpa using heq
        · exact hacc
        · intro x hx
          rcases List.mem_cons.mp hx with rfl | hx
          · have : x.2 ≤ acc.1 := by omega
            calc x.2 ≤ acc.1 := this
              _ ≤ _ := le_of_lt hacc
          · simpa using hall x hx
        · intro j hj
          cases j with
          | zero =>
            have h0 : e.2 ≤ acc.1 := by omega
            simpa using lt_of_le_of_lt h0 hacc
          | succ j => exact hprev j (by omega)

/-- `find?` returns the element at the first index satisfying the
predicate. -/
theorem find?_first {α : Type} (p : α → Bool) (l : List α) :
    ∀ (i : Nat) (h : i < l.length),
      (∀ j (hj : j < i), ¬ p (l.get ⟨j, Nat.lt_trans hj h⟩) = true) →
      p (l.get ⟨i, h⟩) = true → l.find? p = some (l.get ⟨i, h⟩) := by
  induction l with
  | nil => intro i h; simp at h
  | cons x l ih =>
    intro i h hprev hp
    cases i with
    | zero =>
      simp only [List.get] at hp
      simp [List.find?_cons, hp]
    | succ i =>
      have hx : ¬ p x = true := by
        have := hprev 0 (Nat.succ_pos i)
        simpa using this
      rw [List.find?_cons_of_neg _ hx]
      have hlen : i < l.length := by simpa using Nat.lt_of_succ_lt_succ h
      have hprev2 : ∀ j (hj : j < i), ¬ p (l.get ⟨j, Nat.lt_trans hj hlen⟩) = true := by
        intro j hj
        have := hprev (j + 1) (Nat.succ_lt_succ hj)
        simpa using this
      have hp2 : p (l.get ⟨i, hlen⟩) = true := by simpa using hp
      have := ih i hlen hprev2 hp2
      rw [this]
      congr 1

/-- `calculateMode` of a nonempty list is a member of maximal count,
and it is the FIRST distinct value (in original encounter order) that
achieves that count. -/
theorem calculateMode_spec (ns : List Int) (h : ns ≠ []) :
    calculateMode ns ∈ ns ∧
    (∀ v ∈ ns, ns.count v ≤ ns.count (calculateMode ns)) ∧
    (distinctVals ns).find? (fun v => ns.count v == ns.count (calculateMode ns))
      = some (calculateMode ns) := by
  have hget : ∀ v, mapGet (ns.foldl
      (fun m num => mapSet m num ((mapGet m num).getD 0 + 1)) ([] : JsMap Int Nat)) v
      = if v ∈ ns then some (ns.count v) else none := by
    intro v
    have := freq_get_aux ns [] v
    simpa [mapGet_nil] using this
  have hkeys : mapKeys (ns.foldl
      (fun m num => mapSet m num ((mapGet m num).getD 0 + 1)) ([] : JsMap Int Nat))
      = distinctVals ns := by
    have := freq_keys_aux ns []
    have hfilter : ns.filter (fun x => decide (x ∉ mapKeys ([] : JsMap Int Nat))) = ns := by
      apply List.filter_eq_self.mpr
      intro a _
      simp [mapKeys]
    simpa [mapKeys, hfilter] using this
  set freq := ns.foldl
    (fun m num => mapSet m num ((mapGet m num).getD 0 + 1)) ([] : JsMap Int Nat) with hfreq
  have hnd : (mapKeys freq).Nodup := by rw [hkeys]; exact distinctVals_nodup ns
  have hentry : ∀ p ∈ freq, p.1 ∈ ns ∧ p.2 = ns.count p.1 := by
    intro p hp
    have hg := mapGet_of_mem freq hnd p hp
    rw [hget p.1] at hg
    by_cases hmem : p.1 ∈ ns
    · rw [if_pos hmem] at hg
      exact ⟨hmem, (Option.some.inj hg).symm⟩
    · rw [if_neg hmem] at hg
      cases hg
  have hpos : ∀ p ∈ freq, 1 ≤ p.2 := by
    intro p hp
    obtain ⟨hmem, hcount⟩ := hentry p hp
    rw [hcount]
    exact List.count_pos_iff.mpr hmem
  have hne : freq ≠ [] := by
    intro he
    have : distinctVals ns = [] := by rw [← hkeys, he]; rfl
    exact distinctVals_ne_nil ns h this
  rcases pick_fold_first_max freq (0, ns.headD 0) with ⟨_, hall⟩ | ⟨i, hi, heq, _, hall, hprev⟩
  · obtain ⟨p, hp⟩ := List.exists_mem_of_ne_nil freq hne
    have := hall p hp
    have := hpos p hp
    omega
  · have hmode : calculateMode ns = (freq.get ⟨i, hi⟩).1 := by
      rw [calculateMode, ← hfreq, heq]
    have hmem_i : freq.get ⟨i, hi⟩ ∈ freq := List.get_mem freq _ _
    obtain ⟨hmem1, hcount1⟩ := hentry _ hmem_i
    have hcmode : ns.count (calculateMode ns) = (freq.get ⟨i, hi⟩).2 := by
      rw [hmode, ← hcount1]
    refine ⟨hmode ▸ hmem1, ?_, ?_⟩
    · intro v hv
      have hgv : mapGet freq v = some (ns.count v) := by rw [hget v, if_pos hv]
      have hmem_v : (v, ns.count v) ∈ freq := mem_of_mapGet freq v _ hgv
      have := hall _ hmem_v
      rw [hcmode]
      simpa using this
    · rw [← hkeys]
      have hilen : i < (mapKeys freq).length := by
        simpa [mapKeys] using hi
      have hkey_i : (mapKeys freq).get ⟨i, hilen⟩ = (freq.get ⟨i, hi⟩).1 := by
        simp [mapKeys]
      have hgoal : (some (calculateMode ns) : Option Int)
          = some ((mapKeys freq).get ⟨i, hilen⟩) := by
        rw [hkey_i, ← hmode]
      rw [hgoal]
      apply find?_first _ _ i hilen
      · intro j hj
        have hjlen : j < freq.length := by
          have := Nat.lt_trans hj hilen
          simpa [mapKeys] using this
        have hkey_j : (mapKeys freq).get ⟨j, Nat.lt_trans hj hilen⟩ = (freq.get ⟨j, hjlen⟩).1 := by
          simp [mapKeys, List.get_map]
        rw [hkey_j]
        obtain ⟨hmemj, hcountj⟩ := hentry _ (List.get_mem freq j hjlen)
        have hlt := hprev j hj
        have : (freq.get ⟨j, hjlen⟩).2 < (freq.get ⟨i, hi⟩).2 := by
          convert hlt using 2
        rw [hcmode]
        simp only [beq_iff_eq, ← hcountj]
        omega
      · rw [hkey_i, hcmode, ← hcount1]
        simp

/-- Lookup in the corrected-ages map built by `collectCorrections`:
customers present in the grouping map get the mode of their ages when
they have more than one distinct age, and nothing otherwise. -/
theorem collectCorrections_aux (m : JsMap Int (List Int)) :
    ∀ (acc : JsMap Int Int) (cors : List AgeCorrection) (cid : Int),
      (mapKeys m).Nodup → (∀ k ∈ mapKeys m, mapGet acc k = none) →
      mapGet ((m.foldl correctionStep (acc, cors)).1) cid
        = match mapGet m cid with
          | some ages =>
            if 1 < (distinctVals ages).length then some (calculateMode ages) else none
          | none => mapGet acc cid := by
  induction m with
  | nil => intro acc cors cid _ _; simp [mapGet_nil]
  | cons e m ih =>
    intro acc cors cid hnd hfresh
    have hnd' : (e.1 :: mapKeys m).Nodup := by rwa [mapKeys_cons] at hnd
    have hhead : e.1 ∉ mapKeys m := by
      intro hm
      exact (List.pairwise_cons.mp hnd').1 e.1 hm rfl
    rw [List.foldl_cons]
    by_cases hcond : 1 < (distinctVals e.2).length
    · have hstep : correctionStep (acc, cors) e
          = (mapSet acc e.1 (calculateMode e.2),
             cors ++ [⟨e.1, distinctVals e.2, calculateMode e.2⟩]) := by
        simp [correctionStep, hcond]
      rw [hstep]
      have hfresh2 : ∀ k ∈ mapKeys m,
          mapGet (mapSet acc e.1 (calculateMode e.2)) k = none := by
        intro k hk
        have hkne : k ≠ e.1 := fun he => hhead (he ▸ hk)
        rw [mapGet_set_ne _ _ _ _ hkne]
        exact hfresh k (by rw [mapKeys_cons]; exact List.mem_cons_of_mem _ hk)
      rw [ih _ _ cid (List.pairwise_cons.mp hnd').2 hfresh2]
      by_cases hcid : e.1 = cid
      · subst hcid
        have hm' : mapGet m e.1 = none := (mapGet_eq_none_iff m e.1).mpr hhead
        rw [hm', mapGet_cons, if_pos rfl]
        simp [hcond, mapGet_set_self]
      · rw [mapGet_cons, if_neg hcid]
        cases hmm : mapGet m cid with
        | some ages => rfl
        | none => exact mapGet_set_ne _ _ _ _ (fun he => hcid he.symm)
    · have hstep : correctionStep (acc, cors) e = (acc, cors) := by
        simp [correctionStep, hcond]
      rw [hstep]
      rw [ih _ _ cid (List.pairwise_cons.mp hnd').2 ?fresh2]
      case fresh2 =>
        intro k hk
        exact hfresh k (by rw [mapKeys_cons]; exact List.mem_cons_of_mem _ hk)
      by_cases hcid : e.1 = cid
      · subst hcid
        have hm' : mapGet m e.1 = none := (mapGet_eq_none_iff m e.1).mpr hhead
        rw [hm', mapGet_cons, if_pos rfl]
        simp only [hcond, if_false]
        exact hfresh e.1 (by rw [mapKeys_cons]; exact List.mem_cons_self _ _)
      · rw [mapGet_cons, if_neg hcid]

theorem collectCorrections_get (m : JsMap Int (List Int)) (hnd : (mapKeys m).Nodup)
    (cid : Int) :
    mapGet (collectCorrections m).1 cid
      = match mapGet m cid with
        | some ages =>
          if 1 < (distinctVals ages).length then some (calculateMode ages) else none
        | none => none := by
  have h := collectCorrections_aux m [] [] cid hnd (by intro k _; rfl)
  rw [collectCorrections]
  rw [h]
  cases mapGet m cid <;> rfl

/-- C5: after the age pass, a record of a customer with more than one
distinct age carries a mode of the customer age multiset — a maximal
count value that is the first (in original encounter order) to achieve
that count; records of single-distinct-age customers are unchanged, and
length is preserved. -/
theorem age_correction_mode (data : List CleanedTransaction) (i : Nat)
    (h : i < data.length) :
    (handleInconsistentAges data).corrected.length = data.length ∧
    (1 < (distinctVals (agesOf data (data.get ⟨i, h⟩).customerId)).length →
      ∃ m, (handleInconsistentAges data).corrected.get? i
          = some { data.get ⟨i, h⟩ with age := m } ∧
        m ∈ agesOf data (data.get ⟨i, h⟩).customerId ∧
        (∀ v ∈ agesOf data (data.get ⟨i, h⟩).customerId,
          (agesOf data (data.get ⟨i, h⟩).customerId).count v
            ≤ (agesOf data (data.get ⟨i, h⟩).customerId).count m) ∧
        (distinctVals (agesOf data (data.get ⟨i, h⟩).customerId)).find?
            (fun v => (agesOf data (data.get ⟨i, h⟩).customerId).count v
              == (agesOf data (data.get ⟨i, h⟩).customerId).count m)
          = some m) ∧
    ((distinctVals (agesOf data (data.get ⟨i, h⟩).customerId)).length ≤ 1 →
      (handleInconsistentAges data).corrected.get? i = some (data.get ⟨i, h⟩)) := by
  set t := data.get ⟨i, h⟩ with ht
  have htmem : t ∈ data := by rw [ht]; exact List.get_mem data i h
  have hany : data.any (fun u => u.customerId = t.customerId) = true := by
    rw [List.any_eq_true]
    exact ⟨t, htmem, by simp⟩
  have hga : mapGet (groupAges data) t.customerId = some (agesOf data t.customerId) := by
    rw [groupAges_get, if_pos hany]
  have hcc0 := collectCorrections_get (groupAges data) (groupAges_keys_nodup data)
    t.customerId
  rw [hga] at hcc0
  have hcc : mapGet (collectCorrections (groupAges data)).1 t.customerId
      = if 1 < (distinctVals (agesOf data t.customerId)).length
        then some (calculateMode (agesOf data t.customerId)) else none := hcc0
  have hget? : (handleInconsistentAges data).corrected.get? i
      = some (match mapGet (collectCorrections (groupAges data)).1 t.customerId with
          | some correctedAge => { t with age := correctedAge }
          | none => t) := by
    show (data.map _).get? i = _
    rw [List.get?_map, List.get?_eq_get h]
    rfl
  have hages_ne : agesOf data t.customerId ≠ [] := by
    have : t.age ∈ agesOf data t.customerId := by
      rw [agesOf]
      exact List.mem_map_of_mem _ (List.mem_filter.mpr ⟨htmem, by simp⟩)
    intro he
    rw [he] at this
    cases this
  refine ⟨?_, ?_, ?_⟩
  · show (data.map _).length = data.length
    rw [List.length_map]
  · intro hcond
    rw [if_pos hcond] at hcc
    refine ⟨calculateMode (agesOf data t.customerId), ?_, ?_, ?_, ?_⟩
    · rw [hget?, hcc]
    · exact (calculateMode_spec _ hages_ne).1
    · exact (calculateMode_spec _ hages_ne).2.1
    · exact (calculateMode_spec _ hages_ne).2.2
  · intro hcond
    rw [if_neg (by omega : ¬ 1 < (distinctVals (agesOf data t.customerId)).length)] at hcc
    rw [hget?, hcc]

/-- A record of customer `1` with the given age (other fields from the
template). -/
def ageRec (a : Int) : CleanedTransaction := { baseRecord with age := a }

/-- C5 witness: for the spec tie example (ages `[30, 31]`), the first
record is corrected to a mode value that the first-seen tie-break
selects; all conjuncts are produced by the main theorem at this concrete
input. -/
theorem age_correction_mode_witness :
    ∃ m, (handleInconsistentAges [ageRec 30, ageRec 31]).corrected.get? 0
        = some { ageRec 30 with age := m } ∧
      m ∈ agesOf [ageRec 30, ageRec 31] 1 ∧
      (∀ v ∈ agesOf [ageRec 30, ageRec 31] 1,
        (agesOf [ageRec 30, ageRec 31] 1).count v
          ≤ (agesOf [ageRec 30, ageRec 31] 1).count m) ∧
      (distinctVals (agesOf [ageRec 30, ageRec 31] 1)).find?
          (fun v => (agesOf [ageRec 30, ageRec 31] 1).count v
            == (agesOf [ageRec 30, ageRec 31] 1).count m)
        = some m :=
  (age_correction_mode [ageRec 30, ageRec 31] 0 (by norm_num)).2.1 (by
    show 1 < (distinctVals (agesOf [ageRec 30, ageRec 31] 1)).length
    have h1 : agesOf [ageRec 30, ageRec 31] 1 = [30, 31] := by decide
    rw [h1]
    have h2 : distinctVals [30, 31] = [30, 31] := by
      rw [distinctVals_cons]
      norm_num
      rw [distinctVals_cons]
      norm_num
      simp [distinctVals]
    rw [h2]
    norm_num)

/-! ## Claim C9: anomaly detection -/

theorem insertByScore_perm (x : AnomalousTransaction) (l : List AnomalousTransaction) :
    (insertByScore x l).Perm (x :: l) := by
  induction l with
  | nil => simp [insertByScore]
  | cons y ys ih =>
    rw [insertByScore]
    split_ifs with hle
    · exact List.Perm.refl _
    · exact (List.Perm.cons y ih).trans (List.Perm.swap x y ys)

theorem sortByScoreDesc_perm (l : List AnomalousTransaction) :
    (sortByScoreDesc l).Perm l := by
  induction l with
  | nil => simp [sortByScoreDesc]
  | cons x xs ih =>
    rw [sortByScoreDesc]
    exact (insertByScore_perm x (sortByScoreDesc xs)).trans (List.Perm.cons x ih)

theorem insertByScore_pairwise (x : AnomalousTransaction)
    (l : List AnomalousTransaction)
    (hl : l.Pairwise (fun a b => b.anomalyScore ≤ a.anomalyScore)) :
    (insertByScore x l).Pairwise (fun a b => b.anomalyScore ≤ a.anomalyScore) := by
  induction l with
  | nil => simp [insertByScore]
  | cons y ys ih =>
    obtain ⟨hy, hys⟩ := List.pairwise_cons.mp hl
    rw [insertByScore]
    split_ifs with hle
    · refine List.Pairwise.cons ?_ hl
      intro z hz
      rcases List.mem_cons.mp hz with rfl | hz
      · exact hle
      · exact le_trans (hy z hz) hle
    · refine List.Pairwise.cons ?_ (ih hys)
      intro z hz
      have hz2 := (insertByScore_perm x ys).mem_iff.mp hz
      rcases List.mem_cons.mp hz2 with rfl | hz2
      · omega
      · exact hy z hz2

theorem sortByScoreDesc_pairwise (l : List AnomalousTransaction) :
    (sortByScoreDesc l).Pairwise (fun a b => b.anomalyScore ≤ a.anomalyScore) := by
  induction l with
  | nil => simp [sortByScoreDesc]
  | cons x xs ih =>
    rw [sortByScoreDesc]
    exact insertByScore_pairwise x _ ih

/-- A record flagged `anomaly = 1` fires the first signal, so its
reasons are nonempty and its score is at least 50 (every other signal
only adds). -/
theorem anomalyEval_flagged (mean variance : ℚ)
    (cmap : JsMap Int (List CleanedTransaction)) (t : CleanedTransaction)
    (h : t.anomaly = some 1) :
    (anomalyEval mean variance cmap t).1 ≠ [] ∧
    50 ≤ (anomalyEval mean variance cmap t).2 := by
  simp only [anomalyEval, h, if_true]
  split_ifs <;> simp <;> omega

/-- C9: every source-flagged record appears in the anomaly output with
score at least 50; every output entry has at least one triggered
signal; and the output is sorted by `anomalyScore` descending. -/
theorem anomaly_detection_properties :
    (∀ (data : List CleanedTransaction) (t : CleanedTransaction),
      t ∈ data → t.anomaly = some 1 →
      ∃ e ∈ detectAnomalousTransactions data, e.transaction = t ∧ 50 ≤ e.anomalyScore) ∧
    (∀ (data : List CleanedTransaction) (e : AnomalousTransaction),
      e ∈ detectAnomalousTransactions data → e.anomalyReasons ≠ []) ∧
    (∀ data : List CleanedTransaction,
      (detectAnomalousTransactions data).Pairwise
        (fun a b => b.anomalyScore ≤ a.anomalyScore)) := by
  refine ⟨?_, ?_, ?_⟩
  · intro data t ht hflag
    obtain ⟨hne, hscore⟩ := anomalyEval_flagged (meanAmount data) (varianceAmount data)
      (groupByCustomer data) t hflag
    set r := anomalyEval (meanAmount data) (varianceAmount data) (groupByCustomer data) t
      with hr
    refine ⟨⟨t, r.2, r.1⟩, ?_, rfl, hscore⟩
    rw [detectAnomalousTransactions]
    rw [(sortByScoreDesc_perm _).mem_iff]
    apply List.mem_filterMap.mpr
    refine ⟨t, ht, ?_⟩
    rw [← hr, if_neg hne]
  · intro data e he
    rw [detectAnomalousTransactions] at he
    rw [(sortByScoreDesc_perm _).mem_iff] at he
    obtain ⟨t, _, hf⟩ := List.mem_filterMap.mp he
    by_cases hne :
      (anomalyEval (meanAmount data) (varianceAmount data) (groupByCustomer data) t).1 = []
    · rw [if_pos hne] at hf
      cases hf
    · rw [if_neg hne] at hf
      have := Option.some.inj hf
      rw [← this]
      exact hne
  · intro data
    rw [detectAnomalousTransactions]
    exact sortByScoreDesc_pairwise _

/-- C9 witness: a concrete flagged record appears in the output of its
singleton dataset with score at least 50. -/
theorem anomaly_detection_properties_witness :
    ∃ e ∈ detectAnomalousTransactions [{ baseRecord with anomaly := some 1 }],
      e.transaction = { baseRecord with anomaly := some 1 } ∧ 50 ≤ e.anomalyScore :=
  anomaly_detection_properties.1 [{ baseRecord with anomaly := some 1 }]
    { baseRecord with anomaly := some 1 } (List.mem_singleton_self _) rfl

end Banking
